import Mathlib

/-!
Verification development for the ResumeOptimizer repository.

The repository tailors a resume to a job description with an LLM and renders
the structured result to a PDF.  The code under scrutiny is
`src/api/pdf_generator.py` (markup normalizer `process_bold_markers`, renderer
`generate_pdf_resume`), `src/api/generate.py` (the same renderer inlined, the
fence-stripping response parsing in `extract_job_details` / `tailor_resume`,
the `do_POST` handler and its filename logic), and the behaviourally identical
`src/netlify/functions/generate.py`.

Modelling conventions:
  * Python strings are `List Char` (`Str`); JSON-decoded Python values are the
    inductive `JVal`.
  * Python dynamic attribute/type errors are modelled with `Except PyErr`.
  * ReportLab flowables are modelled by the inductive `Elem`, keeping the text
    handed to each `Paragraph` and a tag for the style used; constant styling
    parameters (font sizes, paddings, column widths) carry no information
    relevant to the claims and are elided.  `doc.build` is an abstract
    function parameter `build : List Elem → List Nat`, so theorems about the
    produced bytes quantify over every possible deterministic build step.
  * Python `re` dot-semantics, `str.replace`, `str.split`, `str.strip`,
    truthiness and `dict.get` are modelled faithfully on the ASCII fragment
    the program manipulates; `\w` of the `re` module is modelled by its ASCII
    word characters and `str.strip` by the six ASCII whitespace characters.
-/

namespace ResumeOpt

/-- Python strings are modelled as lists of characters. -/
abbrev Str := List Char

/-- Shorthand turning a Lean string literal into the `Str` model. -/
def str (s : String) : Str := s.toList

/-- A JSON-decoded Python value (`json.loads` result or anything built from
such values): `None`, booleans, integers, strings, lists and dicts.  Dicts are
association lists with (by construction) distinct keys.  Non-integral JSON
numbers do not occur in any statement of this development and are outside the
model. -/
inductive JVal where
  | jnull : JVal
  | jbool : Bool → JVal
  | jnum : Int → JVal
  | jstr : Str → JVal
  | jarr : List JVal → JVal
  | jobj : List (Str × JVal) → JVal

/-- Dynamic errors a Python expression of the modelled fragment can raise. -/
inductive PyErr where
  | attributeError : PyErr
  | typeError : PyErr
  | keyError : PyErr
deriving DecidableEq, Repr

/-- Decidable equality of `Except` results, for deciding closed statements. -/
instance exceptDecEq {ε α : Type} [DecidableEq ε] [DecidableEq α] :
    DecidableEq (Except ε α)
  | .ok a, .ok b =>
    if h : a = b then .isTrue (by rw [h]) else
      .isFalse (fun hh => by cases hh; exact h rfl)
  | .error a, .error b =>
    if h : a = b then .isTrue (by rw [h]) else
      .isFalse (fun hh => by cases hh; exact h rfl)
  | .ok _, .error _ => .isFalse (fun hh => by cases hh)
  | .error _, .ok _ => .isFalse (fun hh => by cases hh)

/-- Python truthiness (`bool(v)`) of a JSON value: `None`/`False`/`0` and
empty strings, lists and dicts are falsy. -/
def truthy : JVal → Bool
  | .jnull => false
  | .jbool b => b
  | .jnum n => decide (n ≠ 0)
  | .jstr s => !s.isEmpty
  | .jarr xs => !xs.isEmpty
  | .jobj kvs => !kvs.isEmpty

/-- Truthiness of `d.get(k)`: a missing key (`None`) is falsy. -/
def optTruthy : Option JVal → Bool
  | none => false
  | some v => truthy v

/-- Key lookup in the association list backing a modelled dict. -/
def objLookup : List (Str × JVal) → Str → Option JVal
  | [], _ => none
  | (k', v) :: rest, k => if k' = k then some v else objLookup rest k

/-- Python `v.get(k)`: succeeds on dicts (returning `None` as `Option.none`
for a missing key), raises `AttributeError` on every other value. -/
def dictGet (v : JVal) (k : Str) : Except PyErr (Option JVal) :=
  match v with
  | .jobj kvs => .ok (objLookup kvs k)
  | _ => .error .attributeError

/-- Python `v.get(k, d)` with an explicit default. -/
def dictGetD (v : JVal) (k : Str) (d : JVal) : Except PyErr JVal :=
  (dictGet v k).map (fun o => o.getD d)

mutual

/-- Python `repr` of a modelled value (container case of `str()`); string
quoting is modelled without the quote-switching refinement, which no claim
touches. -/
def pyRepr : JVal → Str
  | .jnull => str "None"
  | .jbool true => str "True"
  | .jbool false => str "False"
  | .jnum n => (toString n).toList
  | .jstr s => '\'' :: s ++ ['\'']
  | .jarr xs => '[' :: pyReprItems xs ++ [']']
  | .jobj kvs => "\x7b".toList ++ pyReprPairs kvs ++ "\x7d".toList

/-- Comma-joined `repr`s of list items. -/
def pyReprItems : List JVal → Str
  | [] => []
  | [v] => pyRepr v
  | v :: vs => pyRepr v ++ str ", " ++ pyReprItems vs

/-- Comma-joined `'key': repr(value)` pairs of dict items. -/
def pyReprPairs : List (Str × JVal) → Str
  | [] => []
  | [(k, v)] => '\'' :: k ++ ['\''] ++ str ": " ++ pyRepr v
  | (k, v) :: kvs => '\'' :: k ++ ['\''] ++ str ": " ++ pyRepr v ++ str ", " ++ pyReprPairs kvs

end

/-- Python `str(v)` (the conversion applied by f-string interpolation). -/
def pyStr : JVal → Str
  | .jstr s => s
  | v => pyRepr v

/-- ReportLab paragraph-style tags created by `create_styles`. -/
inductive Sty where
  | nameS | contactS | sectionS | companyS | titleS | bulletS | normalS
deriving DecidableEq, Repr

/-- A ReportLab flowable as the renderer produces it: a `Paragraph` (kept as
its markup text plus style tag), an `HRFlowable`, a one-row two-column
`Table` of two paragraphs, or a `Spacer`. -/
inductive Elem where
  | para : Str → Sty → Elem
  | hrule : Elem
  | rowTable : Elem → Elem → Elem
  | spacer : Nat → Nat → Elem
deriving DecidableEq, Repr

/-- ReportLab `Paragraph(text, style)` requires its text to be a string;
any other modelled value raises. -/
def paraOf (v : JVal) (sty : Sty) : Except PyErr Elem :=
  match v with
  | .jstr s => .ok (.para s sty)
  | _ => .error .typeError

/-- Python iteration `for x in v`: lists yield their items, strings their
characters (as one-character strings), dicts their keys; other values raise
`TypeError`. -/
def pyIter : JVal → Except PyErr (List JVal)
  | .jarr xs => .ok xs
  | .jstr s => .ok (s.map (fun c => .jstr [c]))
  | .jobj kvs => .ok (kvs.map (fun kv => .jstr kv.1))
  | _ => .error .typeError

/-- The elements handed to `sep.join(...)` must all be strings. -/
def strsOf : List JVal → Except PyErr (List Str)
  | [] => .ok []
  | v :: vs =>
    match v with
    | .jstr s => (strsOf vs).map (fun ss => s :: ss)
    | _ => .error .typeError

/-- Python `sep.join(list)` on a list of modelled values. -/
def pyJoin (sep : Str) (vs : List JVal) : Except PyErr Str :=
  (strsOf vs).map (List.intercalate sep)

/-- Python `sep.join(v)` for an arbitrary iterable value. -/
def pyJoinIter (sep : Str) (v : JVal) : Except PyErr Str := do
  let items ← pyIter v
  pyJoin sep items

/-- Worker for `pyReplace`, scanning one character per step so that the
kernel can evaluate it: a positive `skip` count consumes the remaining
characters of an already-emitted occurrence of `old`. -/
def pyReplaceAux (old new : Str) : Nat → Str → Str
  | _ + 1, [] => []
  | skip + 1, _ :: rest => pyReplaceAux old new skip rest
  | 0, [] => []
  | 0, c :: rest =>
    if old ≠ [] ∧ old.isPrefixOf (c :: rest) then
      new ++ pyReplaceAux old new (old.length - 1) rest
    else
      c :: pyReplaceAux old new 0 rest

/-- Python `s.replace(old, new)`: replace each non-overlapping occurrence of
`old`, scanning left to right and never rescanning the replacement.  The
(here unused) empty-`old` case is modelled as the identity. -/
def pyReplace (old new : Str) (s : Str) : Str := pyReplaceAux old new 0 s

/-- The six ASCII whitespace characters recognised by `str.strip()` and by
the `\s` class of the `re` module. -/
def pyIsSpace (c : Char) : Bool :=
  c = ' ' || c = '\t' || c = '\n' || c = '\r' || c = '\x0b' || c = '\x0c'

/-- Python `s.strip()`: drop leading and trailing whitespace. -/
def pyStrip (s : Str) : Str :=
  ((s.dropWhile pyIsSpace).reverse.dropWhile pyIsSpace).reverse

/-- Worker for `pySplit`, scanning one character per step; a positive `skip`
count consumes the remaining characters of a recognised occurrence of
`sep`. -/
def pySplitAux (sep : Str) : Nat → Str → List Str
  | _ + 1, [] => [[]]
  | skip + 1, _ :: rest => pySplitAux sep skip rest
  | 0, [] => [[]]
  | 0, c :: rest =>
    if sep ≠ [] ∧ sep.isPrefixOf (c :: rest) then
      [] :: pySplitAux sep (sep.length - 1) rest
    else
      match pySplitAux sep 0 rest with
      | [] => [[c]]
      | p :: ps => (c :: p) :: ps

/-- Python `s.split(sep)` for a separator string: split at each
non-overlapping occurrence of `sep`, scanning left to right.  (Python raises
on an empty separator; that case is modelled as no occurrence and is never
used.) -/
def pySplit (sep : Str) (s : Str) : List Str := pySplitAux sep 0 s

/-- Boolean occurrence test: does `sep` occur as a contiguous substring? -/
def hasSeq (sep : Str) : Str → Bool
  | [] => false
  | c :: rest => sep.isPrefixOf (c :: rest) || hasSeq sep rest

/-!  The markup normalizer (`process_bold_markers`, identical in
`src/api/pdf_generator.py` lines 22-41 and `src/api/generate.py` lines
32-39). -/

/-- Scanner for the closing `**` of a (non-greedy) `\*\*(.*?)\*\*` match:
starting right after an opening `**`, extend the content one character at a
time, trying the closing `**` first; `.` does not match a newline, so a
newline before any closing `**` fails the whole match attempt.  Returns the
content and the remainder after the closing `**`. -/
def findCloseAux : Str → Option (Str × Str)
  | [] => none
  | c :: rest =>
    if c = '*' ∧ rest.head? = some '*' then some ([], rest.tail)
    else if c = '\n' then none
    else (findCloseAux rest).map (fun p => (c :: p.1, p.2))

/-- Worker for `reSubBold`, scanning one character per step; after a
successful match the emitted match (`**` + content + `**`, whose tail
relative to the current head has `content.length + 3` characters) is consumed
via the `skip` count. -/
def reSubBoldAux : Nat → Str → Str
  | _ + 1, [] => []
  | skip + 1, _ :: rest => reSubBoldAux skip rest
  | 0, [] => []
  | 0, c :: rest =>
    if c = '*' ∧ rest.head? = some '*' then
      match findCloseAux rest.tail with
      | some (content, _) =>
        str "<b>" ++ content ++ str "</b>" ++ reSubBoldAux (content.length + 3) rest
      | none => c :: reSubBoldAux 0 rest
    else c :: reSubBoldAux 0 rest

/-- Python `re.sub(r'\*\*(.*?)\*\*', r'<b>\1</b>', s)`: scan left to right;
at each `**` try the leftmost (non-greedy) closing `**` with newline-free
content; on success emit the bold wrapper and continue after the match, on
failure move one character forward. -/
def reSubBold (s : Str) : Str := reSubBoldAux 0 s

/-- The entity-escaping step of `process_bold_markers`: replace `&` first,
then `<`, then `>`. -/
def escapeEntities (s : Str) : Str :=
  pyReplace (str ">") (str "&gt;")
    (pyReplace (str "<") (str "&lt;")
      (pyReplace (str "&") (str "&amp;") s))

/-- The markup normalizer `process_bold_markers(text)`: falsy input (`None`,
`''`, but also `0`, `[]`, ...) yields the empty string; a non-empty string is
entity-escaped and then bold-substituted; any other truthy value raises
`AttributeError` at the first `.replace` call. -/
def process_bold_markers (text : JVal) : Except PyErr Str :=
  if truthy text = false then .ok []
  else
    match text with
    | .jstr s => .ok (reSubBold (escapeEntities s))
    | _ => .error .attributeError

/-!  The renderer `generate_pdf_resume` of `src/api/pdf_generator.py`
(lines 137-366); `src/api/generate.py` lines 72-193 and
`src/netlify/functions/generate.py` lines 72-193 inline the identical logic
and produce the identical element sequence.  The element list is built
section by section exactly as the source appends to `elements`. -/

/-- The email contact part (lines 172-174): a mail-link f-string when the
field is present and truthy. -/
def emailPartOf : Option JVal → List JVal
  | some v =>
    if truthy v then
      [.jstr (str "<a href=\"mailto:" ++ pyStr v ++ str "\" color=\"blue\">" ++
        pyStr v ++ str "</a>")]
    else []
  | none => []

/-- A raw contact part (phone, lines 175-176, and location, lines 185-186):
the looked-up value itself when present and truthy. -/
def rawPartOf : Option JVal → List JVal
  | some v => if truthy v then [v] else []
  | none => []

/-- A link contact part (linkedin, lines 177-180, and github, lines
181-184): `.replace` strips every `https://` and then every `http://`
occurrence from the display text; `.replace` on a non-string raises
`AttributeError`. -/
def linkPartOf : Option JVal → Except PyErr (List JVal)
  | some v =>
    if truthy v then
      match v with
      | .jstr s =>
        .ok [.jstr (str "<a href=\"" ++ s ++ str "\" color=\"blue\">" ++
          pyReplace (str "http://") [] (pyReplace (str "https://") [] s) ++ str "</a>")]
      | _ => .error .attributeError
    else .ok []
  | none => .ok []

/-- Contact parts accumulated by the header code (lines 168-186): each
present and truthy contact field contributes one entry, in the fixed order
email, phone, linkedin, github, location. -/
def contactParts (contact : JVal) : Except PyErr (List JVal) := do
  let email ← dictGet contact (str "email")
  let ep := emailPartOf email
  let phone ← dictGet contact (str "phone")
  let pp := rawPartOf phone
  let linkedin ← dictGet contact (str "linkedin")
  let lp ← linkPartOf linkedin
  let github ← dictGet contact (str "github")
  let gp ← linkPartOf github
  let location ← dictGet contact (str "location")
  let op := rawPartOf location
  pure (ep ++ pp ++ lp ++ gp ++ op)

/-- The contact line (lines 188-190): emitted only when at least one part is
present; the parts are joined with `' | '`. -/
def contactLineElems (contact : JVal) : Except PyErr (List Elem) := do
  let parts ← contactParts contact
  if parts.isEmpty then pure []
  else do
    let line ← pyJoin (str " | ") parts
    pure [.para line .contactS]

/-- The header (lines 164-190): the name paragraph (default `'Your Name'` on
a missing key) followed by the optional contact line. -/
def headerSection (rd : JVal) : Except PyErr (List Elem) := do
  let name ← dictGetD rd (str "name") (.jstr (str "Your Name"))
  let namePara ← paraOf name .nameS
  let contact ← dictGetD rd (str "contact") (.jobj [])
  let line ← contactLineElems contact
  pure (namePara :: line)

/-- One education entry (lines 197-231): institution/graduation row (both
f-strings, bold), optional degree paragraph (raw value), then GPA and
coursework bullets (f-strings), then a spacer. -/
def educationEntry (edu : JVal) : Except PyErr (List Elem) := do
  let inst ← dictGetD edu (str "institution") (.jstr [])
  let grad ← dictGetD edu (str "graduation") (.jstr [])
  let row := Elem.rowTable
    (.para (str "<b>" ++ pyStr inst ++ str "</b>") .normalS)
    (.para (str "<b>" ++ pyStr grad ++ str "</b>") .normalS)
  let degree ← dictGetD edu (str "degree") (.jstr [])
  let degreeElems ← if truthy degree then do
      let p ← paraOf degree .normalS
      pure [p]
    else pure ([] : List Elem)
  let gpa ← dictGet edu (str "gpa")
  let cw ← dictGet edu (str "relevant_coursework")
  let bullets : List Str :=
    (match gpa with
     | some v => if truthy v then [str "<b>GPA:</b> " ++ pyStr v] else []
     | none => []) ++
    (match cw with
     | some v => if truthy v then [str "<b>Relevant Coursework:</b> " ++ pyStr v] else []
     | none => [])
  pure ([row] ++ degreeElems ++
    bullets.map (fun b => Elem.para (str "• " ++ b) .bulletS) ++ [.spacer 1 4])

/-- A bullet of an experience or project entry (lines 274-276 and 326-328):
normalized by `process_bold_markers` and prefixed with the bullet glyph. -/
def bulletElem (b : JVal) : Except PyErr Elem := do
  let pb ← process_bold_markers b
  pure (.para (str "• " ++ pb) .bulletS)

/-- One experience entry (lines 238-278): company/location row, title/
duration row, normalized bullets, spacer.  Location and duration are handed
to `Paragraph` raw. -/
def experienceEntry (exp : JVal) : Except PyErr (List Elem) := do
  let company ← dictGetD exp (str "company") (.jstr [])
  let location ← dictGetD exp (str "location") (.jstr [])
  let locPara ← paraOf location .normalS
  let row := Elem.rowTable
    (.para (str "<b>" ++ pyStr company ++ str "</b>") .normalS) locPara
  let title ← dictGetD exp (str "title") (.jstr [])
  let duration ← dictGetD exp (str "duration") (.jstr [])
  let durPara ← paraOf duration .normalS
  let row2 := Elem.rowTable
    (.para (str "<i>" ++ pyStr title ++ str "</i>") .normalS) durPara
  let bs ← dictGetD exp (str "bullets") (.jarr [])
  let items ← pyIter bs
  let bulletElems ← items.mapM bulletElem
  pure ([row, row2] ++ bulletElems ++ [.spacer 1 4])

/-- One project entry (lines 285-330): name/location row, optional
technologies/duration row (emitted only if either is truthy), optional raw
description paragraph, normalized bullets, spacer. -/
def projectEntry (proj : JVal) : Except PyErr (List Elem) := do
  let pname ← dictGetD proj (str "name") (.jstr [])
  let location ← dictGetD proj (str "location") (.jstr [])
  let locPara ← paraOf location .normalS
  let row := Elem.rowTable
    (.para (str "<b>" ++ pyStr pname ++ str "</b>") .normalS) locPara
  let technologies ← dictGetD proj (str "technologies") (.jstr [])
  let duration ← dictGetD proj (str "duration") (.jstr [])
  let rowTech ← if truthy technologies || truthy duration then do
      let durPara ← paraOf duration .normalS
      pure [Elem.rowTable
        (.para (str "<i>" ++ pyStr technologies ++ str "</i>") .normalS) durPara]
    else pure ([] : List Elem)
  let desc ← dictGet proj (str "description")
  let descElems ← match desc with
    | some v =>
      if truthy v then do
        let p ← paraOf v .normalS
        pure [p]
      else pure ([] : List Elem)
    | none => pure ([] : List Elem)
  let bs ← dictGetD proj (str "bullets") (.jarr [])
  let items ← pyIter bs
  let bulletElems ← items.mapM bulletElem
  pure ([row] ++ rowTech ++ descElems ++ bulletElems ++ [.spacer 1 4])

/-- The Education section (lines 192-231): emitted only when the
`education` value is truthy. -/
def educationSection (rd : JVal) : Except PyErr (List Elem) := do
  let edus ← dictGet rd (str "education")
  match edus with
  | some v =>
    if truthy v then do
      let items ← pyIter v
      let entries ← items.mapM educationEntry
      pure ([Elem.para (str "EDUCATION") .sectionS, .hrule] ++ entries.flatten)
    else pure []
  | none => pure []

/-- The Experience section (lines 233-278). -/
def experienceSection (rd : JVal) : Except PyErr (List Elem) := do
  let exps ← dictGet rd (str "experience")
  match exps with
  | some v =>
    if truthy v then do
      let items ← pyIter v
      let entries ← items.mapM experienceEntry
      pure ([Elem.para (str "EXPERIENCE") .sectionS, .hrule] ++ entries.flatten)
    else pure []
  | none => pure []

/-- The Projects section (lines 280-330). -/
def projectsSection (rd : JVal) : Except PyErr (List Elem) := do
  let projs ← dictGet rd (str "projects")
  match projs with
  | some v =>
    if truthy v then do
      let items ← pyIter v
      let entries ← items.mapM projectEntry
      pure ([Elem.para (str "PROJECTS") .sectionS, .hrule] ++ entries.flatten)
    else pure []
  | none => pure []

/-- One skills group line (lines 339-349): emitted when the group value is
truthy; the values are comma-joined (all must be strings). -/
def skillsGroupElems (skills : JVal) (key : Str) (label : Str) :
    Except PyErr (List Elem) := do
  let g ← dictGet skills key
  match g with
  | some v =>
    if truthy v then do
      let joined ← pyJoinIter (str ", ") v
      pure [Elem.para (str "• " ++ label ++ joined) .bulletS]
    else pure []
  | none => pure []

/-- The Skills section (lines 332-351): the heading and rule are emitted
whenever the `skills` value is truthy (for a dict: non-empty, regardless of
the three groups); then one bullet line per truthy group. -/
def skillsSection (rd : JVal) : Except PyErr (List Elem) := do
  let sk ← dictGet rd (str "skills")
  match sk with
  | some skills =>
    if truthy skills then do
      let tech ← skillsGroupElems skills (str "technical") (str "<b>Technical:</b> ")
      let tools ← skillsGroupElems skills (str "tools")
        (str "<b>Tools &amp; Frameworks:</b> ")
      let langs ← skillsGroupElems skills (str "programming_languages")
        (str "<b>Programming Languages:</b> ")
      pure ([Elem.para (str "SKILLS") .sectionS, .hrule] ++
        tech ++ tools ++ langs ++ [.spacer 1 4])
    else pure []
  | none => pure []

/-- The Certifications section (lines 353-361): each certification is
rendered via an f-string (no normalization). -/
def certificationsSection (rd : JVal) : Except PyErr (List Elem) := do
  let certs ← dictGet rd (str "certifications")
  match certs with
  | some v =>
    if truthy v then do
      let items ← pyIter v
      pure ([Elem.para (str "CERTIFICATIONS") .sectionS, .hrule] ++
        items.map (fun c => Elem.para (str "• " ++ pyStr c) .bulletS) ++ [.spacer 1 4])
    else pure []
  | none => pure []

/-- The full element list `elements` handed to `doc.build` (lines 162-364),
in source order. -/
def resumeElements (rd : JVal) : Except PyErr (List Elem) := do
  let h ← headerSection rd
  let edu ← educationSection rd
  let exp ← experienceSection rd
  let proj ← projectsSection rd
  let sk ← skillsSection rd
  let certs ← certificationsSection rd
  pure (h ++ edu ++ exp ++ proj ++ sk ++ certs)

/-- The renderer `generate_pdf_resume(resume_data, company_name, job_title)`.
The `build` parameter abstracts ReportLab's `doc.build` plus
`buffer.getvalue()` (PDF serialisation of the element list); the source
never reads `company_name` or `job_title` in the body (they are mentioned
only by the docstring). -/
def generate_pdf_resume (build : List Elem → List Nat) (resume_data : JVal)
    (company_name job_title : JVal) : Except PyErr (List Nat) :=
  (resumeElements resume_data).map build

/-!  Filename derivation (`src/api/generate.py` lines 533-536, identically
`src/netlify/functions/generate.py` lines 508-511). -/

/-- The `\w` class of the `re` module, on the ASCII fragment of the model:
letters, digits and underscore. -/
def pyWordChar (c : Char) : Bool := c.isAlpha || c.isDigit || c = '_'

/-- A character kept by `re.sub(r'[^\w\s-]', '', s)`. -/
def keepFilenameChar (c : Char) : Bool := pyWordChar c || pyIsSpace c || c = '-'

/-- `re.sub(r'[^\w\s-]', '', s).strip().replace(' ', '_')`. -/
def safeComponent (s : Str) : Str :=
  pyReplace (str " ") (str "_") (pyStrip (s.filter keepFilenameChar))

/-- `f"Resume_{safe_company}_{safe_title}.pdf"`. -/
def makeFilename (company title : Str) : Str :=
  str "Resume_" ++ safeComponent company ++ str "_" ++ safeComponent title ++ str ".pdf"

/-!  Fence-stripping of LLM responses (`src/api/generate.py` lines 451-458
in `tailor_resume` and lines 321-328 in `extract_job_details`; identical in
the netlify variant). -/

/-- Removal of the optional `json` tag of a fenced block
(`if response_text.startswith("json"): response_text = response_text[4:]`). -/
def jsonTagDrop (part : Str) : Str :=
  if (str "json").isPrefixOf part then part.drop 4 else part

/-- The response post-processing before `json.loads`: `strip()`, then, when
the text starts with a code fence, take `split("```")[1]`, drop a leading
`json` tag, and `strip()` again. -/
def stripFences (raw : Str) : Str :=
  if (str "```").isPrefixOf (pyStrip raw) then
    pyStrip (jsonTagDrop ((pySplit (str "```") (pyStrip raw)).getD 1 []))
  else pyStrip raw

/-!  A model of `json.loads`, used only to evaluate concrete counterexample
inputs.  It covers the fragment exercised here: the four JSON whitespace
characters, `null`/`true`/`false`, integer numerals, strings with the
single-character escapes, arrays and objects.  Non-integral numbers and
`\u` escapes are rejected as outside the model; no statement below relies
on them. -/

/-- The whitespace accepted between JSON tokens. -/
def jsonWs (c : Char) : Bool := c = ' ' || c = '\t' || c = '\n' || c = '\r'

/-- An opening brace character (written via its code point to keep brace
characters out of the source text). -/
def lbrace : Char := Char.ofNat 123

/-- A closing brace character. -/
def rbrace : Char := Char.ofNat 125

/-- Scan a JSON string body after its opening quote; returns the decoded
content and the remainder after the closing quote. -/
def jscanStr : Str → Except Unit (Str × Str)
  | [] => .error ()
  | '"' :: rest => .ok ([], rest)
  | '\\' :: rest =>
    match rest with
    | [] => .error ()
    | e :: rest' =>
      let dec : Except Unit Char :=
        if e = '"' then .ok '"' else if e = '\\' then .ok '\\'
        else if e = '/' then .ok '/' else if e = 'n' then .ok '\n'
        else if e = 't' then .ok '\t' else if e = 'r' then .ok '\r'
        else if e = 'b' then .ok '\x08' else if e = 'f' then .ok '\x0c'
        else .error ()
      match dec with
      | .error _ => .error ()
      | .ok c => (jscanStr rest').map (fun p => (c :: p.1, p.2))
  | c :: rest => (jscanStr rest).map (fun p => (c :: p.1, p.2))

/-- Scan an integer numeral (optional minus sign, then digits). -/
def jscanInt (s : Str) : Except Unit (Int × Str) :=
  let (neg, s') : Bool × Str :=
    match s with
    | '-' :: rest => (true, rest)
    | _ => (false, s)
  let digits := s'.takeWhile Char.isDigit
  let rest := s'.dropWhile Char.isDigit
  if digits.isEmpty then .error ()
  else
    match rest with
    | '.' :: _ => .error ()
    | 'e' :: _ => .error ()
    | 'E' :: _ => .error ()
    | _ =>
      let n : Nat := digits.foldl (fun acc c => 10 * acc + (c.toNat - 48)) 0
      .ok (if neg then -(n : Int) else (n : Int), rest)

mutual

/-- Parse one JSON value; `fuel` bounds the recursion depth and shrinks at
every call, each of which consumes at least one character, so any fuel of at
least twice the input length is enough. -/
def jparseVal : Nat → Str → Except Unit (JVal × Str)
  | 0, _ => .error ()
  | f + 1, s =>
    match s.dropWhile jsonWs with
    | [] => .error ()
    | c :: rest =>
      if c = '"' then (jscanStr rest).map (fun p => (.jstr p.1, p.2))
      else if c = '[' then jparseArr f rest
      else if c = lbrace then jparseObj f rest
      else if (str "null").isPrefixOf (c :: rest) then .ok (.jnull, rest.drop 3)
      else if (str "true").isPrefixOf (c :: rest) then .ok (.jbool true, rest.drop 3)
      else if (str "false").isPrefixOf (c :: rest) then .ok (.jbool false, rest.drop 4)
      else (jscanInt (c :: rest)).map (fun p => (.jnum p.1, p.2))

/-- Parse the items of an array, after the opening bracket. -/
def jparseArr : Nat → Str → Except Unit (JVal × Str)
  | 0, _ => .error ()
  | f + 1, s =>
    match s.dropWhile jsonWs with
    | ']' :: rest => .ok (.jarr [], rest)
    | _ =>
      match jparseVal f s with
      | .error _ => .error ()
      | .ok (v, r) =>
        match jparseArrRest f r with
        | .error _ => .error ()
        | .ok (vs, r') => .ok (.jarr (v :: vs), r')

/-- Parse `, item ... ]` after one array item. -/
def jparseArrRest : Nat → Str → Except Unit (List JVal × Str)
  | 0, _ => .error ()
  | f + 1, s =>
    match s.dropWhile jsonWs with
    | ']' :: rest => .ok ([], rest)
    | ',' :: rest =>
      match jparseVal f rest with
      | .error _ => .error ()
      | .ok (v, r) =>
        match jparseArrRest f r with
        | .error _ => .error ()
        | .ok (vs, r') => .ok (v :: vs, r')
    | _ => .error ()

/-- Parse the members of an object, after the opening brace. -/
def jparseObj : Nat → Str → Except Unit (JVal × Str)
  | 0, _ => .error ()
  | f + 1, s =>
    match s.dropWhile jsonWs with
    | c :: rest =>
      if c = rbrace then .ok (.jobj [], rest)
      else
        match jparseMember f (c :: rest) with
        | .error _ => .error ()
        | .ok (kv, r) =>
          match jparseObjRest f r with
          | .error _ => .error ()
          | .ok (kvs, r') => .ok (.jobj (kv :: kvs), r')
    | [] => .error ()

/-- Parse one `"key": value` member. -/
def jparseMember : Nat → Str → Except Unit ((Str × JVal) × Str)
  | 0, _ => .error ()
  | f + 1, s =>
    match s.dropWhile jsonWs with
    | '"' :: rest =>
      match jscanStr rest with
      | .error _ => .error ()
      | .ok (k, r) =>
        match r.dropWhile jsonWs with
        | ':' :: r' =>
          match jparseVal f r' with
          | .error _ => .error ()
          | .ok (v, r'') => .ok ((k, v), r'')
        | _ => .error ()
    | _ => .error ()

/-- Parse `, member ... close-brace` after one object member. -/
def jparseObjRest : Nat → Str → Except Unit (List (Str × JVal) × Str)
  | 0, _ => .error ()
  | f + 1, s =>
    match s.dropWhile jsonWs with
    | c :: rest =>
      if c = rbrace then .ok ([], rest)
      else if c = ',' then
        match jparseMember f rest with
        | .error _ => .error ()
        | .ok (kv, r) =>
          match jparseObjRest f r with
          | .error _ => .error ()
          | .ok (kvs, r') => .ok (kv :: kvs, r')
      else .error ()
    | [] => .error ()

end

/-- The model of `json.loads`: parse one value and require only whitespace
after it. -/
def jsonLoads (s : Str) : Except Unit JVal :=
  match jparseVal (2 * s.length + 4) s with
  | .error _ => .error ()
  | .ok (v, rest) => if (rest.dropWhile jsonWs).isEmpty then .ok v else .error ()

/-!  The HTTP handler `do_POST` of `src/api/generate.py` (lines 466-558).
External collaborators (the multipart byte parsing outcome, the PDF text
extraction outcome, the two LLM round-trips, `json.loads`, and ReportLab's
build step) enter as explicit parameters, so every theorem quantifies over
all their behaviours.  The netlify `handler` (lines 436-529 of its file)
maps the same outcomes to the same status codes and payloads. -/

/-- Parsed multipart form data: text fields and the names of uploaded
files. -/
structure FormData where
  fields : List (Str × Str)
  files : List Str
deriving DecidableEq

/-- Lookup in the text fields of a form. -/
def fieldLookup : List (Str × Str) → Str → Option Str
  | [], _ => none
  | (k', v) :: rest, k => if k' = k then some v else fieldLookup rest k

/-- `form_data['fields'].get(k, '')`. -/
def fieldsGetD (fd : FormData) (k : Str) : Str := (fieldLookup fd.fields k).getD []

/-- One low-level write the handler performs on the response stream. -/
inductive WriteEv where
  | statusLine : Nat → WriteEv
  | header : Str → Str → WriteEv
  | endHeaders : WriteEv
  | bodyJson : Str → WriteEv
  | bodyPdf : List Nat → WriteEv
deriving DecidableEq

/-- JSON string escaping as `json.dumps` applies it to the error message
(the claims do not depend on the escaping of further control characters). -/
def jsonEscChar (c : Char) : Str :=
  if c = '"' then str "\\\"" else if c = '\\' then str "\\\\"
  else if c = '\n' then str "\\n" else if c = '\r' then str "\\r"
  else if c = '\t' then str "\\t" else [c]

/-- `json.dumps({'error': message})`. -/
def jsonDumpsError (msg : Str) : Str :=
  str "\x7b\"error\": \"" ++ (msg.map jsonEscChar).flatten ++ str "\"\x7d"

/-- `send_error_response(status_code, message)` (lines 552-558): status
line, JSON content type, end of headers, and the single structured error
payload. -/
def send_error_response (code : Nat) (msg : Str) : List WriteEv :=
  [.statusLine code, .header (str "Content-Type") (str "application/json"),
   .endHeaders, .bodyJson (jsonDumpsError msg)]

/-- Representative `str(e)` text of a modelled dynamic error; no claim
depends on the exact wording. -/
def pyErrMsg : PyErr → Str
  | .attributeError => str "AttributeError"
  | .typeError => str "TypeError"
  | .keyError => str "KeyError"

/-- An exception reaching the `try`/`except` of `do_POST`: either a
`json.JSONDecodeError` (handled by the dedicated clause) or any other
exception with its `str(e)` text. -/
inductive AppErr where
  | decodeErr : Str → AppErr
  | genericErr : Str → AppErr
deriving DecidableEq

/-- The two `except` clauses of `do_POST` (lines 547-550). -/
def appErrResponse : AppErr → List WriteEv
  | .decodeErr m => send_error_response 500 (str "Failed to parse AI response: " ++ m)
  | .genericErr m => send_error_response 500 (str "Error: " ++ m)

/-- `extract_job_details` (lines 291-331) applied to an obtained response
text: fence-strip, `json.loads`, then read the two fields with their
defaults. -/
def extract_job_details (loads : Str → Except Str JVal) (resp : Str) :
    Except AppErr (JVal × JVal) :=
  match loads (stripFences resp) with
  | .error m => .error (.decodeErr m)
  | .ok data =>
    match dictGetD data (str "company_name") (.jstr (str "Unknown Company")) with
    | .error e => .error (.genericErr (pyErrMsg e))
    | .ok c =>
      match dictGetD data (str "job_title") (.jstr (str "Unknown Position")) with
      | .error e => .error (.genericErr (pyErrMsg e))
      | .ok t => .ok (c, t)

/-- `tailor_resume` (lines 334-460) applied to an obtained response text:
fence-strip then `json.loads`. -/
def tailor_resume (loads : Str → Except Str JVal) (resp : Str) :
    Except AppErr JVal :=
  match loads (stripFences resp) with
  | .error m => .error (.decodeErr m)
  | .ok v => .ok v

/-- `re.sub` requires a string subject; the filename components are derived
from the resolved company/title values. -/
def safeComponentV : JVal → Except PyErr Str
  | .jstr s => .ok (safeComponent s)
  | _ => .error .typeError

/-- The company/title resolution step of `do_POST` (lines 517-523): when
either optional field is empty, both are extracted from the job description
via `extract_job_details`, and each empty field is replaced by its extracted
value. -/
def resolveDetails (loads : Str → Except Str JVal) (company title : Str)
    (llmJobDetails : Except Str Str) : Except AppErr (JVal × JVal) :=
  if company.isEmpty || title.isEmpty then
    match llmJobDetails with
    | .error m => .error (.genericErr m)
    | .ok resp =>
      match extract_job_details loads resp with
      | .error e => .error e
      | .ok (ec, et) =>
        .ok ((if company.isEmpty then ec else .jstr company),
             (if title.isEmpty then et else .jstr title))
  else .ok (.jstr company, .jstr title)

/-- The `do_POST` request handler (lines 466-558), as the sequence of writes
it performs.  Parameters: the `json.loads` behaviour, the ReportLab build
step, the configured API key, the Content-Type header, the outcome of
`parse_multipart`, the outcome of `extract_text_from_pdf`, and the outcomes
of the two LLM calls (`Except.error` being a raised network/service
exception with its `str(e)` text). -/
def do_POST (loads : Str → Except Str JVal) (build : List Elem → List Nat)
    (apiKey : Option Str) (contentType : Str)
    (formResult : Except Str FormData) (extractTextResult : Except Str Str)
    (llmJobDetails llmTailor : Except Str Str) : List WriteEv :=
  match apiKey with
  | none => send_error_response 500 (str "OPENROUTER_API_KEY not configured")
  | some _ =>
    if hasSeq (str "multipart/form-data") contentType = false then
      send_error_response 400 (str "Expected multipart/form-data")
    else
      match formResult with
      | .error m => send_error_response 500 (str "Error: " ++ m)
      | .ok fd =>
        if fd.files.contains (str "resume") = false then
          send_error_response 400 (str "Resume file is required")
        else if (fieldsGetD fd (str "job_description")).isEmpty then
          send_error_response 400 (str "Job description is required")
        else
          let company := fieldsGetD fd (str "company_name")
          let title := fieldsGetD fd (str "job_title")
          match extractTextResult with
          | .error m => send_error_response 500 (str "Error: " ++ m)
          | .ok resumeText =>
            if resumeText.isEmpty then
              send_error_response 400 (str "Could not extract text from resume PDF")
            else
              match resolveDetails loads company title llmJobDetails with
              | .error e => appErrResponse e
              | .ok (companyV, titleV) =>
                match llmTailor with
                | .error m => send_error_response 500 (str "Error: " ++ m)
                | .ok resp =>
                  match tailor_resume loads resp with
                  | .error e => appErrResponse e
                  | .ok tailored =>
                    match generate_pdf_resume build tailored companyV titleV with
                    | .error e => send_error_response 500 (str "Error: " ++ pyErrMsg e)
                    | .ok pdfBytes =>
                      match safeComponentV companyV with
                      | .error e => send_error_response 500 (str "Error: " ++ pyErrMsg e)
                      | .ok sc =>
                        match safeComponentV titleV with
                        | .error e => send_error_response 500 (str "Error: " ++ pyErrMsg e)
                        | .ok st =>
                          let filename := str "Resume_" ++ sc ++ str "_" ++ st ++ str ".pdf"
                          let sent200 : List WriteEv :=
                            [.statusLine 200,
                             .header (str "Content-Type") (str "application/pdf"),
                             .header (str "Content-Disposition")
                               (str "attachment; filename=\"" ++ filename ++ str "\""),
                             .header (str "Content-Length") ((toString pdfBytes.length).toList)]
                          match dictGetD tailored (str "keywords_added") (.jarr []) with
                          | .error e => sent200 ++ send_error_response 500 (str "Error: " ++ pyErrMsg e)
                          | .ok kw =>
                            match pyJoinIter (str ",") kw with
                            | .error e => sent200 ++ send_error_response 500 (str "Error: " ++ pyErrMsg e)
                            | .ok kws =>
                              sent200 ++ [.header (str "X-Keywords-Added") kws,
                                .endHeaders, .bodyPdf pdfBytes]

/-!  Reference definitions written from the specification's words, to be
compared with the definitions embedded from the source. -/

/-- Specification wording of the entity-escaping step: each of the three
special characters becomes its entity form (the sequential-replacement
phrasing of the spec is equivalent because the earlier replacements are
never rescanned). -/
def escEntChar (c : Char) : Str :=
  if c = '&' then str "&amp;"
  else if c = '<' then str "&lt;"
  else if c = '>' then str "&gt;" else [c]

/-- Entity escaping, specification formulation. -/
def escRef (s : Str) : Str := (s.map escEntChar).flatten

/-- Specification wording of the bold substitution: the `**` occurrences
(scanned left to right, non-overlapping) are paired up; each consecutive
pair wraps its enclosed content in the bold span, and a final unpaired `**`
stays literal. -/
def pairRebuild : List Str → Str
  | [] => []
  | [p] => p
  | [p, q] => p ++ str "**" ++ q
  | p :: q :: r => p ++ str "<b>" ++ q ++ str "</b>" ++ pairRebuild r

/-- The Markup Normalizer reference definition of claim C2, read literally:
escape entities, then bold-wrap each non-overlapping leftmost non-greedy
`**<content>**` occurrence with no restriction on the content. -/
def markupNormalizerRef (s : Str) : Str :=
  pairRebuild (pySplit (str "**") (escRef s))

/-- Newline-splitting, for the amended normalizer reference. -/
def lineSplit : Str → List Str
  | [] => [[]]
  | c :: rest =>
    if c = '\n' then [] :: lineSplit rest
    else
      match lineSplit rest with
      | [] => [[c]]
      | p :: ps => (c :: p) :: ps

/-- Newline-joining, inverse of `lineSplit`. -/
def joinNL : List Str → Str
  | [] => []
  | [p] => p
  | p :: ps => p ++ '\n' :: joinNL ps

/-- The amended Markup Normalizer reference: as `markupNormalizerRef`, but
a bold span never crosses a newline, so the pairing is applied within each
newline-delimited segment separately. -/
def markupNormalizerRefNL (s : Str) : Str :=
  joinNL ((lineSplit (escRef s)).map (fun seg => pairRebuild (pySplit (str "**") seg)))

/-- The claim-C8 reading of link display texts: only a protocol prefix is
stripped. -/
def stripProtocolOnce (s : Str) : Str :=
  if ("https://".toList).isPrefixOf s then s.drop 8
  else if ("http://".toList).isPrefixOf s then s.drop 7
  else s

/-- The code's actual display-text transformation, in the specification's
vocabulary: every occurrence of `https://`, and then of `http://`, is
removed (formulated by splitting at the occurrences and discarding them). -/
def stripProtocolAll (s : Str) : Str :=
  ((pySplit ("http://".toList) ((pySplit ("https://".toList) s).flatten))).flatten

/-- A present, non-empty optional contact field. -/
def presentF : Option Str → Option Str
  | none => none
  | some s => if s.isEmpty then none else some s

/-- The mail-link markup of the email field. -/
def specMailto (s : Str) : Str :=
  str "<a href=\"mailto:" ++ s ++ str "\" color=\"blue\">" ++ s ++ str "</a>"

/-- The link markup of the linkedin/github fields: full URL as target,
protocol occurrences removed from the display text. -/
def specLink (s : Str) : Str :=
  str "<a href=\"" ++ s ++ str "\" color=\"blue\">" ++ stripProtocolAll s ++ str "</a>"

/-- The contact parts in the specified fixed order, absent and empty fields
skipped. -/
def specContactParts (e p li g lo : Option Str) : List Str :=
  ((presentF e).map specMailto).toList ++ (presentF p).toList ++
  ((presentF li).map specLink).toList ++ ((presentF g).map specLink).toList ++
  (presentF lo).toList

/-- The specified contact line: the parts joined by `' | '`, or nothing when
every field is absent or empty. -/
def specContactLine (e p li g lo : Option Str) : Option Str :=
  match specContactParts e p li g lo with
  | [] => none
  | parts => some (List.intercalate (str " | ") parts)

/-- A contact dict with the five optional fields (an absent field is a
`null` entry, which the renderer treats exactly like a missing key). -/
def optJ : Option Str → JVal
  | none => .jnull
  | some s => .jstr s

/-- Builder of a contact block from the five optional fields. -/
def mkContact (e p li g lo : Option Str) : JVal :=
  .jobj [(str "email", optJ e), (str "phone", optJ p), (str "linkedin", optJ li),
         (str "github", optJ g), (str "location", optJ lo)]

/-- Whitespace-run collapsing as claim C4 specifies `SafeX`: every maximal
internal whitespace run becomes one underscore. -/
def collapseWsAux (inRun : Bool) : Str → Str
  | [] => []
  | c :: rest =>
    if pyIsSpace c then
      if inRun then collapseWsAux true rest
      else '_' :: collapseWsAux true rest
    else c :: collapseWsAux false rest

/-- Claim C4's `SafeX`: strip disallowed characters, trim, collapse each
whitespace run to a single underscore. -/
def specSafeClaim (s : Str) : Str :=
  collapseWsAux false (pyStrip (s.filter keepFilenameChar))

/-- The amended `SafeX`: strip disallowed characters, trim, then replace
each space character individually by an underscore (other whitespace
characters are kept). -/
def specSafeAmended (s : Str) : Str :=
  (pyStrip (s.filter keepFilenameChar)).map (fun c => if c = ' ' then '_' else c)

/-- The fenced wrapping of claim C7: a ```` ```json ````-tagged block. -/
def fencedWrap (t : Str) : Str :=
  str "```json" ++ '\n' :: (t ++ '\n' :: str "```")

/-- Well-typedness of an optional leaf value: absent or a string. -/
def wtStrOpt : Option JVal → Bool
  | none => true
  | some (.jstr _) => true
  | some _ => false

/-- Well-typedness of a contact block: absent, or a dict whose five read
fields are absent or strings. -/
def wtContact : Option JVal → Bool
  | none => true
  | some (.jobj kvs) =>
    wtStrOpt (objLookup kvs (str "email")) && wtStrOpt (objLookup kvs (str "phone")) &&
    wtStrOpt (objLookup kvs (str "linkedin")) && wtStrOpt (objLookup kvs (str "github")) &&
    wtStrOpt (objLookup kvs (str "location"))
  | some _ => false

/-- Well-typedness of one education entry: a dict whose `degree` is absent
or a string (the other leaves are formatted through f-strings and may have
any type). -/
def wtEduEntry : JVal → Bool
  | .jobj kvs => wtStrOpt (objLookup kvs (str "degree"))
  | _ => false

/-- A bullet list: absent, or a list of strings. -/
def wtBullets : Option JVal → Bool
  | none => true
  | some (.jarr xs) => xs.all (fun b => match b with | .jstr _ => true | _ => false)
  | some _ => false

/-- Well-typedness of one experience entry. -/
def wtExpEntry : JVal → Bool
  | .jobj kvs =>
    wtStrOpt (objLookup kvs (str "location")) && wtStrOpt (objLookup kvs (str "duration")) &&
    wtBullets (objLookup kvs (str "bullets"))
  | _ => false

/-- Well-typedness of one project entry. -/
def wtProjEntry : JVal → Bool
  | .jobj kvs =>
    wtStrOpt (objLookup kvs (str "location")) && wtStrOpt (objLookup kvs (str "duration")) &&
    wtStrOpt (objLookup kvs (str "description")) && wtBullets (objLookup kvs (str "bullets"))
  | _ => false

/-- An entry list: absent, or a list of entries each well-typed by `f`. -/
def wtEntries (f : JVal → Bool) : Option JVal → Bool
  | none => true
  | some (.jarr xs) => xs.all f
  | some _ => false

/-- Well-typedness of the skills block: absent, or a dict whose three groups
are absent or string lists. -/
def wtSkills : Option JVal → Bool
  | none => true
  | some (.jobj kvs) =>
    wtBullets (objLookup kvs (str "technical")) && wtBullets (objLookup kvs (str "tools")) &&
    wtBullets (objLookup kvs (str "programming_languages"))
  | some _ => false

/-- Certifications: absent, or a list (items may have any type, they are
formatted through an f-string). -/
def wtCerts : Option JVal → Bool
  | none => true
  | some (.jarr _) => true
  | some _ => false

/-- A structurally well-typed resume document: a dict in which every leaf
field the renderer reads is either absent or of the type the renderer
needs.  Absence of any field — including all of them — is allowed. -/
def wtResume : JVal → Bool
  | .jobj kvs =>
    wtStrOpt (objLookup kvs (str "name")) && wtContact (objLookup kvs (str "contact")) &&
    wtEntries wtEduEntry (objLookup kvs (str "education")) &&
    wtEntries wtExpEntry (objLookup kvs (str "experience")) &&
    wtEntries wtProjEntry (objLookup kvs (str "projects")) &&
    wtSkills (objLookup kvs (str "skills")) && wtCerts (objLookup kvs (str "certifications"))
  | _ => false

/-!  Lemma kit about the scanning string functions. -/

theorem pySplitAux_ne_nil (sep : Str) : ∀ skip s, pySplitAux sep skip s ≠ [] := by
  intro skip s
  induction s generalizing skip with
  | nil => cases skip <;> simp [pySplitAux]
  | cons c rest ih =>
    cases skip with
    | zero =>
      simp only [pySplitAux]
      split
      · simp
      · cases h : pySplitAux sep 0 rest <;> simp
    | succ n => simpa [pySplitAux] using ih n

theorem pySplitAux_skip (sep : Str) (a : Str) : ∀ r, pySplitAux sep a.length (a ++ r) = pySplitAux sep 0 r := by
  induction a with
  | nil => intro r; rfl
  | cons c a' ih => intro r; simpa [pySplitAux] using ih r

theorem pySplitAux_sep_head (sep : Str) (hne : sep ≠ []) (r : Str) :
    pySplitAux sep 0 (sep ++ r) = [] :: pySplitAux sep 0 r := by
  obtain ⟨s0, s', rfl⟩ : ∃ s0 s', sep = s0 :: s' := by
    cases sep with
    | nil => exact absurd rfl hne
    | cons a b => exact ⟨a, b, rfl⟩
  have hpre : (s0 :: s').isPrefixOf ((s0 :: s') ++ r) = true :=
    List.isPrefixOf_iff_prefix.mpr (List.prefix_append _ _)
  rw [List.cons_append] at hpre
  show pySplitAux (s0 :: s') 0 (s0 :: (s' ++ r)) = _
  rw [pySplitAux, if_pos ⟨hne, hpre⟩]
  have hl : (s0 :: s').length - 1 = s'.length := by simp
  rw [hl]
  exact congrArg ([] :: ·) (pySplitAux_skip (s0 :: s') s' r)

theorem hasSeq_tail {sep : Str} {c : Char} {rest : Str}
    (h : hasSeq sep (c :: rest) = false) : hasSeq sep rest = false := by
  simp only [hasSeq, Bool.or_eq_false_iff] at h
  exact h.2

theorem hasSeq_head {sep : Str} {c : Char} {rest : Str}
    (h : hasSeq sep (c :: rest) = false) : sep.isPrefixOf (c :: rest) = false := by
  simp only [hasSeq, Bool.or_eq_false_iff] at h
  exact h.1

theorem pySplitAux_no_occ {sep : Str} : ∀ {s}, hasSeq sep s = false → pySplitAux sep 0 s = [s] := by
  intro s
  induction s with
  | nil => intro _; rfl
  | cons c rest ih =>
    intro h
    simp only [pySplitAux]
    rw [if_neg (by
      rintro ⟨-, hpre⟩
      rw [hasSeq_head h] at hpre
      exact Bool.false_ne_true hpre)]
    rw [ih (hasSeq_tail h)]

theorem pySplitAux_first_occ {sep : Str} (hne : sep ≠ []) :
    ∀ (m r : Str), (∀ b, b ≠ [] → b <:+ m → sep.isPrefixOf (b ++ (sep ++ r)) = false) →
      pySplitAux sep 0 (m ++ (sep ++ r)) = m :: pySplitAux sep 0 r := by
  intro m
  induction m with
  | nil =>
    intro r _
    simpa using pySplitAux_sep_head sep hne r
  | cons c m' ih =>
    intro r hno
    have hpre : sep.isPrefixOf ((c :: m') ++ (sep ++ r)) = false :=
      hno (c :: m') (by simp) List.suffix_rfl
    rw [List.cons_append] at hpre
    rw [List.cons_append]
    rw [pySplitAux, if_neg (by rintro ⟨-, hp⟩; rw [hpre] at hp; exact Bool.false_ne_true hp)]
    have hrec := ih r (fun b hb hsuf => hno b hb (hsuf.trans (List.suffix_cons c m')))
    rw [hrec]

theorem hasSeq_infix_iff {sep : Str} (hne : sep ≠ []) :
    ∀ {s : Str}, hasSeq sep s = true ↔ sep <:+: s := by
  intro s
  induction s with
  | nil =>
    simp only [hasSeq]
    constructor
    · intro h; exact absurd h (by simp)
    · intro h; exact absurd (List.eq_nil_of_infix_nil h) hne
  | cons c rest ih =>
    simp only [hasSeq, Bool.or_eq_true, List.infix_cons_iff]
    constructor
    · rintro (h | h)
      · exact Or.inl (List.isPrefixOf_iff_prefix.mp h)
      · exact Or.inr (ih.mp h)
    · rintro (h | h)
      · exact Or.inl (List.isPrefixOf_iff_prefix.mpr h)
      · exact Or.inr (ih.mpr h)

theorem hasSeq_false_of_infix {sep s t : Str} (hne : sep ≠ [])
    (hsub : s <:+: t) (h : hasSeq sep t = false) : hasSeq sep s = false := by
  by_contra hs
  have : hasSeq sep s = true := by
    cases hq : hasSeq sep s with
    | true => rfl
    | false => exact absurd hq hs
  have : sep <:+: t := ((hasSeq_infix_iff hne).mp this).trans hsub
  rw [(hasSeq_infix_iff hne).mpr this] at h
  simp at h

theorem pyReplaceAux_skip (old new : Str) (a : Str) :
    ∀ r, pyReplaceAux old new a.length (a ++ r) = pyReplaceAux old new 0 r := by
  induction a with
  | nil => intro r; rfl
  | cons c a' ih => intro r; simpa [pyReplaceAux] using ih r

theorem pyReplaceAux_nil_flatten (old : Str) :
    ∀ s skip, pyReplaceAux old [] skip s = (pySplitAux old skip s).flatten := by
  intro s
  induction s with
  | nil => intro skip; cases skip <;> simp [pyReplaceAux, pySplitAux]
  | cons c rest ih =>
    intro skip
    cases skip with
    | zero =>
      simp only [pyReplaceAux, pySplitAux]
      split
      · simp only [List.nil_append, List.flatten_cons]
        exact ih _
      · cases h : pySplitAux old 0 rest with
        | nil => exact absurd h (pySplitAux_ne_nil old 0 rest)
        | cons p ps =>
          have := ih 0
          rw [h] at this
          simp [this]
    | succ n => simpa [pyReplaceAux, pySplitAux] using ih n

theorem pyReplaceAux_single (o : Char) (new : Str) :
    ∀ s, pyReplaceAux [o] new 0 s = (s.map (fun c => if c = o then new else [c])).flatten := by
  intro s
  induction s with
  | nil => rfl
  | cons c rest ih =>
    simp only [pyReplaceAux, List.map_cons, List.flatten_cons]
    by_cases hco : o = c
    · subst hco
      rw [if_pos ⟨by simp, by simp [List.isPrefixOf]⟩]
      have hl : ([o] : Str).length - 1 = 0 := by simp
      rw [hl, ih, if_pos rfl]
    · rw [if_neg (by
        rintro ⟨-, hp⟩
        simp only [List.isPrefixOf, List.isPrefixOf_nil_left, Bool.and_true] at hp
        exact hco (by simpa using hp))]
      rw [if_neg (fun h => hco h.symm), ih]
      rfl

theorem pyReplaceAux_single_append (o : Char) (new : Str) (a b : Str) :
    pyReplaceAux [o] new 0 (a ++ b) =
      pyReplaceAux [o] new 0 a ++ pyReplaceAux [o] new 0 b := by
  simp [pyReplaceAux_single, List.map_append]


theorem escapeEntities_cons (c : Char) (s : Str) :
    escapeEntities (c :: s) = escEntChar c ++ escapeEntities s := by
  show pyReplaceAux (str ">") (str "&gt;") 0
      (pyReplaceAux (str "<") (str "&lt;") 0 (pyReplaceAux (str "&") (str "&amp;") 0 (c :: s))) = _
  have h1 : str "&" = ['&'] := rfl
  have h2 : str "<" = ['<'] := rfl
  have h3 : str ">" = ['>'] := rfl
  rw [h1, h2, h3]
  rw [show pyReplaceAux ['&'] (str "&amp;") 0 (c :: s) =
      pyReplaceAux ['&'] (str "&amp;") 0 [c] ++ pyReplaceAux ['&'] (str "&amp;") 0 s from
    pyReplaceAux_single_append '&' (str "&amp;") [c] s]
  rw [pyReplaceAux_single_append, pyReplaceAux_single_append]
  show _ = escEntChar c ++ pyReplaceAux ['>'] (str "&gt;") 0
      (pyReplaceAux ['<'] (str "&lt;") 0 (pyReplaceAux ['&'] (str "&amp;") 0 s))
  congr 1
  by_cases hc1 : c = '&'
  · subst hc1; rfl
  · by_cases hc2 : c = '<'
    · subst hc2; rfl
    · by_cases hc3 : c = '>'
      · subst hc3; rfl
      · have e1 : pyReplaceAux ['&'] (str "&amp;") 0 [c] = [c] := by
          rw [pyReplaceAux_single]
          simp [hc1]
        have e2 : pyReplaceAux ['<'] (str "&lt;") 0 [c] = [c] := by
          rw [pyReplaceAux_single]
          simp [hc2]
        have e3 : pyReplaceAux ['>'] (str "&gt;") 0 [c] = [c] := by
          rw [pyReplaceAux_single]
          simp [hc3]
        rw [e1, e2, e3]
        simp [escEntChar, hc1, hc2, hc3]

theorem escapeEntities_eq_escRef (s : Str) : escapeEntities s = escRef s := by
  induction s with
  | nil => rfl
  | cons c rest ih =>
    rw [escapeEntities_cons, ih]
    simp [escRef]

theorem escRef_no_newline {s : Str} (h : '\n' ∉ s) : '\n' ∉ escRef s := by
  intro hmem
  simp only [escRef, List.mem_flatten, List.mem_map] at hmem
  obtain ⟨piece, ⟨c, hc, rfl⟩, hin⟩ := hmem
  by_cases h1 : c = '&'
  · subst h1; exact absurd hin (by decide)
  · by_cases h2 : c = '<'
    · subst h2; exact absurd hin (by decide)
    · by_cases h3 : c = '>'
      · subst h3; exact absurd hin (by decide)
      · simp [escEntChar, h1, h2, h3] at hin
        exact h (hin ▸ hc)

theorem pairRebuild_cons_head (c : Char) (p : Str) (ps : List Str) :
    pairRebuild ((c :: p) :: ps) = c :: pairRebuild (p :: ps) := by
  match ps with
  | [] => rfl
  | [q] => simp [pairRebuild]
  | q :: r :: rs => simp [pairRebuild]

theorem pairRebuild_append_head (x p : Str) (ps : List Str) :
    pairRebuild ((x ++ p) :: ps) = x ++ pairRebuild (p :: ps) := by
  induction x with
  | nil => rfl
  | cons c x' ih => rw [List.cons_append, pairRebuild_cons_head, ih]; rfl

theorem joinNL_cons_head (c : Char) (p : Str) (ps : List Str) :
    joinNL ((c :: p) :: ps) = c :: joinNL (p :: ps) := by
  match ps with
  | [] => rfl
  | q :: qs => simp [joinNL]

theorem joinNL_append_head (x p : Str) (ps : List Str) :
    joinNL ((x ++ p) :: ps) = x ++ joinNL (p :: ps) := by
  induction x with
  | nil => rfl
  | cons c x' ih => rw [List.cons_append, joinNL_cons_head, ih]; rfl

theorem lineSplit_ne_nil (s : Str) : lineSplit s ≠ [] := by
  induction s with
  | nil => simp [lineSplit]
  | cons c rest ih =>
    simp only [lineSplit]
    split
    · simp
    · cases h : lineSplit rest <;> simp

theorem lineSplit_cons_of_ne {c : Char} (hc : c ≠ '\n') (rest : Str) :
    ∃ p ps, lineSplit rest = p :: ps ∧ lineSplit (c :: rest) = (c :: p) :: ps := by
  cases h : lineSplit rest with
  | nil => exact absurd h (lineSplit_ne_nil rest)
  | cons p ps =>
    refine ⟨p, ps, rfl, ?_⟩
    simp [lineSplit, hc, h]

theorem lineSplit_head_takeWhile :
    ∀ {s p : Str} {ps : List Str}, lineSplit s = p :: ps →
      p = s.takeWhile (fun c => !(c == '\n')) := by
  intro s
  induction s with
  | nil =>
    intro p ps h
    simp only [lineSplit] at h
    injection h with h1 h2
    subst h1
    rfl
  | cons c rest ih =>
    intro p ps h
    by_cases hc : c = '\n'
    · subst hc
      simp only [lineSplit, if_pos rfl] at h
      injection h with h1 h2
      subst h1
      simp [List.takeWhile]
    · obtain ⟨q, qs, hq, hcons⟩ := lineSplit_cons_of_ne hc rest
      rw [hcons] at h
      injection h with h1 h2
      subst h1
      have hpred : (!(c == '\n')) = true := by simp [hc]
      rw [List.takeWhile_cons, if_pos hpred, ih hq]

theorem lineSplit_append_no_newline :
    ∀ {a : Str}, '\n' ∉ a → ∀ (v : Str) {q : Str} {qs : List Str}, lineSplit v = q :: qs →
      lineSplit (a ++ v) = (a ++ q) :: qs := by
  intro a
  induction a with
  | nil => intro _ v q qs h; simpa using h
  | cons c a' ih =>
    intro hmem v q qs h
    have hc : c ≠ '\n' := fun hh => hmem (hh ▸ List.mem_cons_self c a')
    have ha' : '\n' ∉ a' := fun hh => hmem (List.mem_cons_of_mem c hh)
    have hrec := ih ha' v h
    rw [List.cons_append]
    obtain ⟨p, ps, hp, hcons⟩ := lineSplit_cons_of_ne hc (a' ++ v)
    rw [hp] at hrec
    injection hrec with h1 h2
    subst h1; subst h2
    rw [hcons]
    rfl


theorem prefix2_head {x y c : Char} {l : Str}
    (h : List.isPrefixOf [x, y] (c :: l) = true) : c = x ∧ l.head? = some y := by
  cases l with
  | nil => simp [List.isPrefixOf] at h
  | cons d l' =>
    simp only [List.isPrefixOf, List.isPrefixOf_nil_left, Bool.and_true, Bool.and_eq_true,
      beq_iff_eq] at h
    exact ⟨h.1.symm, by simp [h.2.symm]⟩

theorem prefix2_false {c : Char} {p : Str}
    (h : ¬(c = '*' ∧ p.head? = some '*')) :
    List.isPrefixOf ['*', '*'] (c :: p) = false := by
  cases hq : List.isPrefixOf ['*', '*'] (c :: p) with
  | false => rfl
  | true => exact absurd (prefix2_head hq) h

theorem takeWhile_head? {p : Char → Bool} {l : Str} {y : Char}
    (h : (l.takeWhile p).head? = some y) : l.head? = some y := by
  cases l with
  | nil => simp [List.takeWhile] at h
  | cons d l' =>
    rw [List.takeWhile_cons] at h
    split at h
    · simpa using h
    · simp at h

theorem findCloseAux_some :
    ∀ {l ct r' : Str}, findCloseAux l = some (ct, r') →
      l = ct ++ ('*' :: '*' :: r') ∧ hasSeq ['*', '*'] (ct ++ ['*']) = false ∧ '\n' ∉ ct := by
  intro l
  induction l with
  | nil => intro ct r' h; simp [findCloseAux] at h
  | cons c rest ih =>
    intro ct r' h
    simp only [findCloseAux] at h
    split at h
    · rename_i hcond
      obtain ⟨hc, hh⟩ := hcond
      subst hc
      injection h with h'
      injection h' with h1 h2
      subst h1; subst h2
      cases rest with
      | nil => simp at hh
      | cons a rt =>
        have ha : a = '*' := by simpa using hh
        subst ha
        exact ⟨rfl, by decide, by simp⟩
    · split at h
      · simp at h
      · rename_i hcond hnl
        cases hfc : findCloseAux rest with
        | none => rw [hfc] at h; simp at h
        | some pr =>
          obtain ⟨ct', r''⟩ := pr
          rw [hfc] at h
          simp only [Option.map_some'] at h
          injection h with h'
          injection h' with h1 h2
          subst h2
          obtain ⟨hdec, hseq, hnl'⟩ := ih hfc
          subst h1
          refine ⟨by rw [hdec]; rfl, ?_, ?_⟩
          · show hasSeq ['*', '*'] (c :: (ct' ++ ['*'])) = false
            simp only [hasSeq, Bool.or_eq_false_iff]
            refine ⟨?_, hseq⟩
            apply prefix2_false
            rintro ⟨hc, hhd⟩
            subst hc
            apply hcond
            refine ⟨rfl, ?_⟩
            cases hct : ct' with
            | nil =>
              subst hct
              rw [hdec]
              rfl
            | cons d ct'' =>
              subst hct
              rw [hdec]
              simp only [List.nil_append, List.cons_append, List.head?_cons] at hhd ⊢
              exact hhd
          · intro hmem
            cases List.mem_cons.mp hmem with
            | inl hh => exact hnl hh.symm
            | inr hh => exact hnl' hh

theorem findCloseAux_none :
    ∀ {l : Str}, findCloseAux l = none →
      hasSeq ['*', '*'] (l.takeWhile (fun c => !(c == '\n'))) = false := by
  intro l
  induction l with
  | nil => intro _; rfl
  | cons c rest ih =>
    intro h
    simp only [findCloseAux] at h
    split at h
    · simp at h
    · split at h
      · rename_i hcond hnl
        subst hnl
        rw [List.takeWhile_cons]
        simp [hasSeq]
      · rename_i hcond hnl
        have hr : findCloseAux rest = none := by
          cases hfc : findCloseAux rest with
          | none => rfl
          | some pr => rw [hfc] at h; simp at h
        have htw := ih hr
        have hpred : (!(c == '\n')) = true := by simp [hnl]
        rw [List.takeWhile_cons, if_pos hpred]
        simp only [hasSeq, Bool.or_eq_false_iff]
        refine ⟨?_, htw⟩
        apply prefix2_false
        rintro ⟨hc, hhd⟩
        subst hc
        exact hcond ⟨rfl, takeWhile_head? hhd⟩

theorem reSubBoldAux_skip (a : Str) : ∀ r, reSubBoldAux a.length (a ++ r) = reSubBoldAux 0 r := by
  induction a with
  | nil => intro r; rfl
  | cons c a' ih => intro r; simpa [reSubBoldAux] using ih r

theorem reSubBoldAux_nomatch {c : Char} {rest : Str}
    (h : ¬(c = '*' ∧ rest.head? = some '*')) :
    reSubBoldAux 0 (c :: rest) = c :: reSubBoldAux 0 rest := by
  rw [reSubBoldAux, if_neg h]

theorem reSubBoldAux_close_none {c : Char} {rest : Str}
    (hcond : c = '*' ∧ rest.head? = some '*') (hfc : findCloseAux rest.tail = none) :
    reSubBoldAux 0 (c :: rest) = c :: reSubBoldAux 0 rest := by
  rw [reSubBoldAux, if_pos hcond, hfc]

theorem reSubBoldAux_close_some {c : Char} {rest ct r' : Str}
    (hcond : c = '*' ∧ rest.head? = some '*') (hfc : findCloseAux rest.tail = some (ct, r')) :
    reSubBoldAux 0 (c :: rest) =
      str "<b>" ++ ct ++ str "</b>" ++ reSubBoldAux 0 r' := by
  have hskip : reSubBoldAux (ct.length + 3) rest = reSubBoldAux 0 r' := by
    obtain ⟨hc, hh⟩ := hcond
    obtain ⟨a, rt, rfl⟩ : ∃ a rt, rest = a :: rt := by
      cases rest with
      | nil => simp at hh
      | cons a rt => exact ⟨a, rt, rfl⟩
    have ha : a = '*' := by simpa using hh
    subst ha
    simp only [List.tail_cons] at hfc
    obtain ⟨hdec, -, -⟩ := findCloseAux_some hfc
    subst hdec
    have hshape : ('*' :: (ct ++ ('*' :: '*' :: r'))) = ('*' :: ct ++ ['*', '*']) ++ r' := by
      simp
    rw [hshape]
    have hlen : ct.length + 3 = ('*' :: ct ++ ['*', '*']).length := by simp
    rw [hlen]
    exact reSubBoldAux_skip _ r'
  rw [reSubBoldAux, if_pos hcond, hfc]
  show str "<b>" ++ ct ++ str "</b>" ++ reSubBoldAux (ct.length + 3) rest = _
  rw [hskip]


theorem pySplitAux_no_prefix_cons {sep : Str} {c : Char} {p : Str}
    (h : sep.isPrefixOf (c :: p) = false) :
    pySplitAux sep 0 (c :: p) =
      match pySplitAux sep 0 p with
      | [] => [[c]]
      | q :: qs => (c :: q) :: qs := by
  rw [pySplitAux, if_neg (by rintro ⟨-, hp⟩; rw [h] at hp; exact absurd hp (by simp))]

theorem pairRebuild_split_cons {sep : Str} {c : Char} {p : Str}
    (h : sep.isPrefixOf (c :: p) = false) :
    pairRebuild (pySplitAux sep 0 (c :: p)) = c :: pairRebuild (pySplitAux sep 0 p) := by
  rw [pySplitAux_no_prefix_cons h]
  cases hpp : pySplitAux sep 0 p with
  | nil => exact absurd hpp (pySplitAux_ne_nil sep 0 p)
  | cons q qs => rw [pairRebuild_cons_head]

theorem noEarly_of_hasSeq_false {ct b z : Str}
    (hseq : hasSeq ['*', '*'] (ct ++ ['*']) = false)
    (hb : b ≠ []) (hsuf : b <:+ ct) :
    List.isPrefixOf ['*', '*'] (b ++ (['*', '*'] ++ z)) = false := by
  obtain ⟨x, b', rfl⟩ : ∃ x b', b = x :: b' := by
    cases b with
    | nil => exact absurd rfl hb
    | cons x b' => exact ⟨x, b', rfl⟩
  rw [List.cons_append]
  apply prefix2_false
  rintro ⟨hx, hhd⟩
  subst hx
  cases b' with
  | nil =>
    obtain ⟨ct0, hct⟩ := hsuf
    have htrue : hasSeq ['*', '*'] (ct ++ ['*']) = true := by
      apply (hasSeq_infix_iff (by simp)).mpr
      rw [← hct]
      have hsh : (ct0 ++ ['*']) ++ ['*'] = ct0 ++ ['*', '*'] := by simp
      rw [hsh]
      exact (List.suffix_append ct0 ['*', '*']).isInfix
    rw [htrue] at hseq
    exact absurd hseq (by simp)
  | cons y b'' =>
    have hy : y = '*' := by simpa using hhd
    subst hy
    have hinf : ['*', '*'] <:+: ct ++ ['*'] := by
      have h1 : ['*', '*'] <+: ('*' :: '*' :: b'') := ⟨b'', rfl⟩
      exact (h1.isInfix.trans hsuf.isInfix).trans (List.prefix_append ct ['*']).isInfix
    have htrue := (hasSeq_infix_iff (by simp)).mpr hinf
    rw [htrue] at hseq
    exact absurd hseq (by simp)

theorem reSubBold_segmented_aux :
    ∀ (n : Nat) (u : Str), u.length ≤ n →
      reSubBoldAux 0 u =
        joinNL ((lineSplit u).map
          (fun seg => pairRebuild (pySplitAux (str "**") 0 seg))) := by
  intro n
  induction n with
  | zero =>
    intro u hu
    have hnil : u = [] := List.length_eq_zero.mp (Nat.le_zero.mp hu)
    subst hnil
    rfl
  | succ n ih =>
    intro u hu
    cases u with
    | nil => rfl
    | cons c rest =>
    have hrest : rest.length ≤ n := by
      simp only [List.length_cons] at hu
      omega
    have hsp : str "**" = ['*', '*'] := rfl
    by_cases hcond : c = '*' ∧ rest.head? = some '*'
    · obtain ⟨hc, hh⟩ := hcond
      subst hc
      obtain ⟨a, rt, rfl⟩ : ∃ a rt, rest = a :: rt := by
        cases rest with
        | nil => simp at hh
        | cons a rt => exact ⟨a, rt, rfl⟩
      have ha : a = '*' := by simpa using hh
      subst ha
      cases hfc : findCloseAux rt with
      | some pr =>
        obtain ⟨ct, r'⟩ := pr
        have hfc' : findCloseAux ('*' :: rt).tail = some (ct, r') := by simpa using hfc
        rw [reSubBoldAux_close_some ⟨rfl, hh⟩ hfc']
        obtain ⟨hdec, hseq, hnlct⟩ := findCloseAux_some hfc
        have hr' : r'.length ≤ n := by
          have hlen := congrArg List.length hdec
          simp only [List.length_append, List.length_cons] at hlen
          simp only [List.length_cons] at hrest
          omega
        rw [ih r' hr']
        cases hls : lineSplit r' with
        | nil => exact absurd hls (lineSplit_ne_nil r')
        | cons p ps =>
          have hnl_a : '\n' ∉ ('*' :: '*' :: (ct ++ ['*', '*'])) := by
            intro hm
            simp only [List.mem_cons, List.mem_append] at hm
            rcases hm with h1 | h1 | h1 | h1
            · exact absurd h1 (by decide)
            · exact absurd h1 (by decide)
            · exact hnlct h1
            · exact absurd h1 (by decide)
          have hshape : ('*' :: '*' :: rt) = ('*' :: '*' :: (ct ++ ['*', '*'])) ++ r' := by
            rw [hdec]
            simp
          have hlsu := lineSplit_append_no_newline hnl_a r' hls
          rw [hshape]
          rw [hlsu]
          simp only [List.map_cons]
          have hseg :
              pySplitAux (str "**") 0 (('*' :: '*' :: (ct ++ ['*', '*'])) ++ p) =
                [] :: ct :: pySplitAux (str "**") 0 p := by
            have e1 : (('*' :: '*' :: (ct ++ ['*', '*'])) ++ p) =
                (str "**") ++ (ct ++ ((str "**") ++ p)) := by
              rw [hsp]
              simp
            rw [e1, pySplitAux_sep_head _ (by rw [hsp]; simp)]
            congr 1
            apply pySplitAux_first_occ (by rw [hsp]; simp) ct p
            intro b hb hsuf
            rw [hsp]
            exact noEarly_of_hasSeq_false hseq hb hsuf
          rw [hseg]
          cases hpp : pySplitAux (str "**") 0 p with
          | nil => exact absurd hpp (pySplitAux_ne_nil _ 0 p)
          | cons q qs =>
            have hpr : pairRebuild ([] :: ct :: q :: qs) =
                str "<b>" ++ ct ++ str "</b>" ++ pairRebuild (q :: qs) := rfl
            rw [hpr]
            have hjoin := joinNL_append_head ((str "<b>" ++ ct) ++ str "</b>")
              (pairRebuild (q :: qs))
              (List.map (fun seg => pairRebuild (pySplitAux (str "**") 0 seg)) ps)
            rw [hjoin]
      | none =>
        have hfc' : findCloseAux ('*' :: rt).tail = none := by simpa using hfc
        rw [reSubBoldAux_close_none ⟨rfl, hh⟩ hfc']
        rw [ih ('*' :: rt) hrest]
        have htw := findCloseAux_none hfc
        cases hls : lineSplit rt with
        | nil => exact absurd hls (lineSplit_ne_nil rt)
        | cons p ps =>
          have hp : p = rt.takeWhile (fun ch => !(ch == '\n')) := lineSplit_head_takeWhile hls
          have hseqp : hasSeq ['*', '*'] p = false := by rw [hp]; exact htw
          obtain ⟨p1, ps1, hq1, hc1⟩ :=
            lineSplit_cons_of_ne (show ('*' : Char) ≠ '\n' by decide) rt
          rw [hls] at hq1
          injection hq1 with e1 e2
          subst e1; subst e2
          obtain ⟨p2, ps2, hq2, hc2⟩ :=
            lineSplit_cons_of_ne (show ('*' : Char) ≠ '\n' by decide) ('*' :: rt)
          rw [hc1] at hq2
          injection hq2 with e1 e2
          subst e1; subst e2
          rw [hc1, hc2]
          simp only [List.map_cons]
          have hhead2 : pairRebuild (pySplitAux (str "**") 0 ('*' :: '*' :: p)) =
              str "**" ++ p := by
            have e1 : ('*' :: '*' :: p) = (str "**") ++ p := by rw [hsp]; rfl
            rw [e1, pySplitAux_sep_head _ (by rw [hsp]; simp)]
            rw [pySplitAux_no_occ (by rw [hsp]; exact hseqp)]
            rfl
          have hhead1 : pairRebuild (pySplitAux (str "**") 0 ('*' :: p)) = '*' :: p := by
            by_cases hph : p.head? = some '*'
            · obtain ⟨y, py, rfl⟩ : ∃ y py, p = y :: py := by
                cases p with
                | nil => simp at hph
                | cons y py => exact ⟨y, py, rfl⟩
              have hy : y = '*' := by simpa using hph
              subst hy
              have e1 : ('*' :: '*' :: py) = (str "**") ++ py := by rw [hsp]; rfl
              rw [e1, pySplitAux_sep_head _ (by rw [hsp]; simp)]
              rw [pySplitAux_no_occ (by rw [hsp]; exact hasSeq_tail hseqp)]
              rfl
            · have hpre : (str "**").isPrefixOf ('*' :: p) = false := by
                rw [hsp]
                exact prefix2_false (by rintro ⟨-, hq⟩; exact hph hq)
              rw [pairRebuild_split_cons hpre, pySplitAux_no_occ (by rw [hsp]; exact hseqp)]
              rfl
          rw [hhead1, hhead2, joinNL_cons_head, joinNL_append_head]
          rfl
    · rw [reSubBoldAux_nomatch hcond]
      rw [ih rest hrest]
      by_cases hc : c = '\n'
      · subst hc
        have h1 : lineSplit ('\n' :: rest) = [] :: lineSplit rest := by
          simp [lineSplit]
        rw [h1]
        cases hq : lineSplit rest with
        | nil => exact absurd hq (lineSplit_ne_nil rest)
        | cons p ps =>
          simp only [List.map_cons]
          rfl
      · obtain ⟨p, ps, hq, hcons⟩ := lineSplit_cons_of_ne hc rest
        rw [hcons, hq]
        simp only [List.map_cons]
        have hpre : (str "**").isPrefixOf (c :: p) = false := by
          rw [hsp]
          apply prefix2_false
          rintro ⟨hcc, hhd⟩
          subst hcc
          apply hcond
          refine ⟨rfl, ?_⟩
          have hptw := lineSplit_head_takeWhile hq
          rw [hptw] at hhd
          exact takeWhile_head? hhd
        rw [pairRebuild_split_cons hpre, joinNL_cons_head]

/-- The bold-substitution scanner coincides with the segmented pairwise
reference formulation. -/
theorem reSubBold_segmented (u : Str) :
    reSubBold u =
      joinNL ((lineSplit u).map
        (fun seg => pairRebuild (pySplitAux (str "**") 0 seg))) :=
  reSubBold_segmented_aux u.length u le_rfl

/-- Reduction of `dictGet` on a dict. -/
theorem dictGet_obj (kvs : List (Str × JVal)) (k : Str) :
    dictGet (.jobj kvs) k = .ok (objLookup kvs k) := rfl

/-!  Claim theorems. -/

/-- C2, counterexample: the reference definition of the claim, read
literally, bolds a `**`-pair whose content spans a newline, while the code's
`re.sub` (whose `.` does not match a newline) leaves `"**a\nb**"` entirely
literal.  Both sides are evaluated on that input and differ. -/
theorem c2_counterexample :
    process_bold_markers (.jstr ("**a\nb**".toList)) = .ok ("**a\nb**".toList) ∧
      markupNormalizerRef ("**a\nb**".toList) = "<b>a\nb</b>".toList ∧
      ("**a\nb**".toList : Str) ≠ "<b>a\nb</b>".toList :=
  ⟨rfl, rfl, by decide⟩

/-- C2 as amended: `process_bold_markers` returns the empty string on null
input, and on a string input it escapes `&`, `<`, `>` (in that order) and
then replaces the non-overlapping leftmost non-greedy `**<content>**`
occurrences whose content stays within one line — equivalently, the `**`
separators are paired up left to right within each newline-delimited segment
(`markupNormalizerRefNL`), an unpaired trailing `**` staying literal. -/
theorem c2_theorem :
    process_bold_markers .jnull = .ok [] ∧
      ∀ s : Str, process_bold_markers (.jstr s) = .ok (markupNormalizerRefNL s) := by
  refine ⟨rfl, ?_⟩
  intro s
  cases s with
  | nil => rfl
  | cons c rest =>
    have ht : truthy (.jstr (c :: rest)) = true := by simp [truthy]
    unfold process_bold_markers
    rw [ht]
    rw [if_neg (by simp)]
    show Except.ok (reSubBold (escapeEntities (c :: rest))) = _
    rw [escapeEntities_eq_escRef, reSubBold_segmented]
    rfl

theorem strsOf_map_jstr (l : List Str) : strsOf (l.map .jstr) = .ok l := by
  induction l with
  | nil => rfl
  | cons s rest ih =>
    simp only [List.map_cons, strsOf, ih]
    rfl


/-- The normalizer's closed form on a string input, shared by the bullet
lemmas: escape entities, then pair the `**` separators up within each
newline-delimited segment. -/
theorem process_bold_jstr (s : Str) :
    process_bold_markers (.jstr s) = .ok (markupNormalizerRefNL s) := by
  cases s with
  | nil => rfl
  | cons c rest =>
    have ht : truthy (.jstr (c :: rest)) = true := by simp [truthy]
    unfold process_bold_markers
    rw [ht]
    rw [if_neg (by simp)]
    show Except.ok (reSubBold (escapeEntities (c :: rest))) = _
    rw [escapeEntities_eq_escRef, reSubBold_segmented]
    rfl

/-- A bullet paragraph carries exactly the normalized bullet text. -/
theorem bulletElem_norm (b : Str) :
    bulletElem (.jstr b) = .ok (.para (str "• " ++ markupNormalizerRefNL b) .bulletS) := by
  unfold bulletElem
  rw [process_bold_jstr]
  rfl

/-- A whole string bullet list maps to its normalized paragraphs. -/
theorem mapM_bulletElem_map (bl : List Str) :
    (bl.map JVal.jstr).mapM bulletElem =
      .ok (bl.map (fun b => Elem.para (str "• " ++ markupNormalizerRefNL b) .bulletS)) := by
  induction bl with
  | nil => rfl
  | cons b rest ih =>
    rw [List.map_cons, List.mapM_cons, bulletElem_norm]
    show ((rest.map JVal.jstr).mapM bulletElem >>= fun ys =>
        pure (Elem.para (str "• " ++ markupNormalizerRefNL b) .bulletS :: ys)) =
      Except.ok ((b :: rest).map (fun b => Elem.para (str "• " ++ markupNormalizerRefNL b) .bulletS))
    rw [ih]
    rfl

/-- C1, counterexample: the renderer hands the `name` field to the engine
raw; for the name `"A & B"` the paragraph text still contains the raw `&`,
although the Markup Normalizer would have produced `"A &amp; B"`. -/
theorem c1_counterexample :
    resumeElements (.jobj [(str "name", .jstr (str "A & B"))]) =
        .ok [.para (str "A & B") .nameS] ∧
      process_bold_markers (.jstr (str "A & B")) = .ok (str "A &amp; B") ∧
      (str "A & B") ≠ (str "A &amp; B") :=
  ⟨rfl, rfl, by decide⟩

/-- C1 as amended: only the experience and project bullets pass through the
Markup Normalizer (both sections build their bullet paragraphs through
`bulletElem`, whose text is the normalized bullet); every other user-visible
field reaches the engine unnormalized: the name paragraph carries the raw
name; the contact parts carry the raw email, phone and location values and
the raw linkedin/github URLs as link targets (their display text only loses
protocol occurrences, never entities or bold markers); institution,
graduation, GPA, coursework, company, title, project name, technologies and
certification entries are interpolated raw through `str()`; degree,
location, duration and description are the raw paragraph text; skills
values are comma-joined raw. -/
theorem c1_theorem :
    (∀ (kvs : List (Str × JVal)) (s : Str) (els : List Elem),
        objLookup kvs (str "name") = some (.jstr s) →
        headerSection (.jobj kvs) = .ok els →
        els.head? = some (.para s .nameS)) ∧
    (∀ e p li g lo : Str, e ≠ [] → p ≠ [] → li ≠ [] → g ≠ [] → lo ≠ [] →
        contactParts (.jobj [(str "email", .jstr e), (str "phone", .jstr p),
            (str "linkedin", .jstr li), (str "github", .jstr g),
            (str "location", .jstr lo)]) =
          .ok [.jstr (str "<a href=\"mailto:" ++ e ++ str "\" color=\"blue\">" ++
                 e ++ str "</a>"),
               .jstr p,
               .jstr (str "<a href=\"" ++ li ++ str "\" color=\"blue\">" ++
                 pyReplace (str "http://") [] (pyReplace (str "https://") [] li) ++
                 str "</a>"),
               .jstr (str "<a href=\"" ++ g ++ str "\" color=\"blue\">" ++
                 pyReplace (str "http://") [] (pyReplace (str "https://") [] g) ++
                 str "</a>"),
               .jstr lo]) ∧
    (∀ (inst grad : JVal) (ds gp cw : Str), ds ≠ [] → gp ≠ [] → cw ≠ [] →
        educationEntry (.jobj [(str "institution", inst), (str "graduation", grad),
            (str "degree", .jstr ds), (str "gpa", .jstr gp),
            (str "relevant_coursework", .jstr cw)]) =
          .ok [.rowTable (.para (str "<b>" ++ pyStr inst ++ str "</b>") .normalS)
                 (.para (str "<b>" ++ pyStr grad ++ str "</b>") .normalS),
               .para ds .normalS,
               .para (str "• " ++ (str "<b>GPA:</b> " ++ gp)) .bulletS,
               .para (str "• " ++ (str "<b>Relevant Coursework:</b> " ++ cw)) .bulletS,
               .spacer 1 4]) ∧
    (∀ (company ti : JVal) (ls dsr : Str) (bl : List Str),
        experienceEntry (.jobj [(str "company", company), (str "location", .jstr ls),
            (str "title", ti), (str "duration", .jstr dsr),
            (str "bullets", .jarr (bl.map .jstr))]) =
          .ok ([.rowTable (.para (str "<b>" ++ pyStr company ++ str "</b>") .normalS)
                  (.para ls .normalS),
                .rowTable (.para (str "<i>" ++ pyStr ti ++ str "</i>") .normalS)
                  (.para dsr .normalS)] ++
               bl.map (fun b => Elem.para (str "• " ++ markupNormalizerRefNL b) .bulletS) ++
               [.spacer 1 4])) ∧
    (∀ (pname : JVal) (ls ts dsr de : Str) (bl : List Str), ts ≠ [] → de ≠ [] →
        projectEntry (.jobj [(str "name", pname), (str "location", .jstr ls),
            (str "technologies", .jstr ts), (str "duration", .jstr dsr),
            (str "description", .jstr de), (str "bullets", .jarr (bl.map .jstr))]) =
          .ok ([.rowTable (.para (str "<b>" ++ pyStr pname ++ str "</b>") .normalS)
                  (.para ls .normalS),
                .rowTable (.para (str "<i>" ++ ts ++ str "</i>") .normalS)
                  (.para dsr .normalS),
                .para de .normalS] ++
               bl.map (fun b => Elem.para (str "• " ++ markupNormalizerRefNL b) .bulletS) ++
               [.spacer 1 4])) ∧
    (∀ (label s0 : Str) (sl : List Str),
        skillsGroupElems (.jobj [(str "technical", .jarr ((s0 :: sl).map .jstr))])
            (str "technical") label =
          .ok [.para (str "• " ++ label ++ List.intercalate (str ", ") (s0 :: sl))
            .bulletS]) ∧
    (∀ (c0 : JVal) (cl : List JVal),
        certificationsSection (.jobj [(str "certifications", .jarr (c0 :: cl))]) =
          .ok ([.para (str "CERTIFICATIONS") .sectionS, .hrule] ++
               (c0 :: cl).map (fun c => Elem.para (str "• " ++ pyStr c) .bulletS) ++
               [.spacer 1 4])) ∧
    (∀ b : Str, bulletElem (.jstr b) =
        .ok (.para (str "• " ++ markupNormalizerRefNL b) .bulletS)) := by
  refine ⟨?_, ?_, ?_, ?_, ?_, ?_, ?_, ?_⟩
  · intro kvs s els hname hels
    have e0 : headerSection (.jobj kvs) =
        (contactLineElems ((objLookup kvs (str "contact")).getD (.jobj []))).bind
          (fun line => Except.ok (Elem.para s Sty.nameS :: line)) := by
      unfold headerSection
      rw [show dictGetD (.jobj kvs) (str "name") (.jstr (str "Your Name")) =
          .ok ((objLookup kvs (str "name")).getD (.jstr (str "Your Name"))) from rfl, hname]
      rfl
    rw [e0] at hels
    cases hline : contactLineElems ((objLookup kvs (str "contact")).getD (.jobj [])) with
    | error e =>
      rw [hline] at hels
      exact absurd hels (by simp [Except.bind])
    | ok line =>
      rw [hline] at hels
      replace hels : Except.ok (Elem.para s Sty.nameS :: line) = Except.ok els := hels
      injection hels with h
      rw [← h]
      rfl
  · intro e p li g lo he hp hl hg ho
    obtain ⟨e0, et, rfl⟩ := List.exists_cons_of_ne_nil he
    obtain ⟨p0, pt, rfl⟩ := List.exists_cons_of_ne_nil hp
    obtain ⟨l0, lt, rfl⟩ := List.exists_cons_of_ne_nil hl
    obtain ⟨g0, gt, rfl⟩ := List.exists_cons_of_ne_nil hg
    obtain ⟨o0, ot, rfl⟩ := List.exists_cons_of_ne_nil ho
    rfl
  · intro inst grad ds gp cw hd hgp hcw
    obtain ⟨d0, dt, rfl⟩ := List.exists_cons_of_ne_nil hd
    obtain ⟨g0, gt, rfl⟩ := List.exists_cons_of_ne_nil hgp
    obtain ⟨c0, ct, rfl⟩ := List.exists_cons_of_ne_nil hcw
    rfl
  · intro company ti ls dsr bl
    have step : experienceEntry (.jobj [(str "company", company),
        (str "location", .jstr ls), (str "title", ti), (str "duration", .jstr dsr),
        (str "bullets", .jarr (bl.map .jstr))]) =
        ((bl.map JVal.jstr).mapM bulletElem) >>= (fun bulletElems =>
          Except.ok ([Elem.rowTable
              (.para (str "<b>" ++ pyStr company ++ str "</b>") .normalS)
              (.para ls .normalS),
            .rowTable (.para (str "<i>" ++ pyStr ti ++ str "</i>") .normalS)
              (.para dsr .normalS)] ++ bulletElems ++ [.spacer 1 4])) := rfl
    rw [step, mapM_bulletElem_map]
    rfl
  · intro pname ls ts dsr de bl ht hde
    obtain ⟨t0, tt, rfl⟩ := List.exists_cons_of_ne_nil ht
    obtain ⟨d0, dt, rfl⟩ := List.exists_cons_of_ne_nil hde
    have step : projectEntry (.jobj [(str "name", pname), (str "location", .jstr ls),
        (str "technologies", .jstr (t0 :: tt)), (str "duration", .jstr dsr),
        (str "description", .jstr (d0 :: dt)), (str "bullets", .jarr (bl.map .jstr))]) =
        ((bl.map JVal.jstr).mapM bulletElem) >>= (fun bulletElems =>
          Except.ok ([Elem.rowTable
              (.para (str "<b>" ++ pyStr pname ++ str "</b>") .normalS)
              (.para ls .normalS),
            .rowTable (.para (str "<i>" ++ (t0 :: tt) ++ str "</i>") .normalS)
              (.para dsr .normalS),
            .para (d0 :: dt) .normalS] ++ bulletElems ++ [.spacer 1 4])) := rfl
    rw [step, mapM_bulletElem_map]
    rfl
  · intro label s0 sl
    have step : skillsGroupElems
        (.jobj [(str "technical", .jarr ((s0 :: sl).map .jstr))])
        (str "technical") label =
        ((strsOf ((s0 :: sl).map JVal.jstr)).map (List.intercalate (str ", "))) >>=
          (fun joined =>
            Except.ok [Elem.para (str "• " ++ label ++ joined) .bulletS]) := rfl
    rw [step, strsOf_map_jstr]
    rfl
  · intro c0 cl
    rfl
  · exact bulletElem_norm

/-- C3, counterexample: a resume whose `skills` entry is a dict with all
three groups empty still renders the SKILLS heading (with its rule and
spacer and no bullet lines), because the code only checks the truthiness of
the dict itself. -/
theorem c3_counterexample :
    resumeElements (.jobj [(str "skills", .jobj
        [(str "technical", .jarr []), (str "tools", .jarr []),
         (str "programming_languages", .jarr [])])]) =
      .ok [.para (str "Your Name") .nameS, .para (str "SKILLS") .sectionS,
           .hrule, .spacer 1 4] := by
  rfl

/-- Reduction of an empty skills group line. -/
theorem skillsGroup_empty {skvs : List (Str × JVal)} {k label : Str}
    (h : optTruthy (objLookup skvs k) = false) :
    skillsGroupElems (.jobj skvs) k label = .ok [] := by
  unfold skillsGroupElems
  rw [show dictGet (.jobj skvs) k = .ok (objLookup skvs k) from rfl]
  cases ho : objLookup skvs k with
  | none => rfl
  | some v =>
    rw [ho] at h
    simp only [optTruthy] at h
    show (if truthy v = true then _ else pure []) = _
    rw [h]
    rfl

/-- C3 as amended: a list-backed section (Education, Experience, Projects,
Certifications) whose value is absent or falsy (in particular an empty list)
is omitted in full; the Skills section is omitted exactly when the `skills`
value is falsy (absent or an empty dict) — but a non-empty skills dict whose
three groups are all empty still emits the SKILLS heading, rule and spacer
with no bullet lines. -/
theorem c3_theorem :
    ∀ kvs : List (Str × JVal),
      (optTruthy (objLookup kvs (str "education")) = false →
        educationSection (.jobj kvs) = .ok []) ∧
      (optTruthy (objLookup kvs (str "experience")) = false →
        experienceSection (.jobj kvs) = .ok []) ∧
      (optTruthy (objLookup kvs (str "projects")) = false →
        projectsSection (.jobj kvs) = .ok []) ∧
      (optTruthy (objLookup kvs (str "certifications")) = false →
        certificationsSection (.jobj kvs) = .ok []) ∧
      (optTruthy (objLookup kvs (str "skills")) = false →
        skillsSection (.jobj kvs) = .ok []) ∧
      (∀ skvs : List (Str × JVal), objLookup kvs (str "skills") = some (.jobj skvs) →
        skvs ≠ [] →
        optTruthy (objLookup skvs (str "technical")) = false →
        optTruthy (objLookup skvs (str "tools")) = false →
        optTruthy (objLookup skvs (str "programming_languages")) = false →
        skillsSection (.jobj kvs) =
          .ok [.para (str "SKILLS") .sectionS, .hrule, .spacer 1 4]) := by
  intro kvs
  refine ⟨?_, ?_, ?_, ?_, ?_, ?_⟩
  · intro h
    unfold educationSection
    rw [dictGet_obj]
    cases ho : objLookup kvs (str "education") with
    | none => rfl
    | some v =>
      rw [ho] at h
      simp only [optTruthy] at h
      show (if truthy v = true then _ else pure []) = _
      rw [h]
      rfl
  · intro h
    unfold experienceSection
    rw [dictGet_obj]
    cases ho : objLookup kvs (str "experience") with
    | none => rfl
    | some v =>
      rw [ho] at h
      simp only [optTruthy] at h
      show (if truthy v = true then _ else pure []) = _
      rw [h]
      rfl
  · intro h
    unfold projectsSection
    rw [dictGet_obj]
    cases ho : objLookup kvs (str "projects") with
    | none => rfl
    | some v =>
      rw [ho] at h
      simp only [optTruthy] at h
      show (if truthy v = true then _ else pure []) = _
      rw [h]
      rfl
  · intro h
    unfold certificationsSection
    rw [dictGet_obj]
    cases ho : objLookup kvs (str "certifications") with
    | none => rfl
    | some v =>
      rw [ho] at h
      simp only [optTruthy] at h
      show (if truthy v = true then _ else pure []) = _
      rw [h]
      rfl
  · intro h
    unfold skillsSection
    rw [dictGet_obj]
    cases ho : objLookup kvs (str "skills") with
    | none => rfl
    | some v =>
      rw [ho] at h
      simp only [optTruthy] at h
      show (if truthy v = true then _ else pure []) = _
      rw [h]
      rfl
  · intro skvs hsk hne h1 h2 h3
    unfold skillsSection
    rw [dictGet_obj, hsk]
    have ht : truthy (.jobj skvs) = true := by simp [truthy, hne]
    show (if truthy (JVal.jobj skvs) = true then _ else pure []) = _
    rw [ht, if_pos rfl]
    rw [skillsGroup_empty h1, skillsGroup_empty h2, skillsGroup_empty h3]
    rfl

/-- C10 (confirmed): the renderer ignores its `company_name` and `job_title`
parameters — for equal resume data and any build step the produced bytes are
identical whatever those two arguments are. -/
theorem c10_theorem :
    ∀ (build : List Elem → List Nat) (d c1 t1 c2 t2 : JVal),
      generate_pdf_resume build d c1 t1 = generate_pdf_resume build d c2 t2 :=
  fun _ _ _ _ _ _ => rfl

/-- Replacing spaces by underscores is a character map. -/
theorem pyReplace_space_underscore (x : Str) :
    pyReplace (str " ") (str "_") x = x.map (fun c => if c = ' ' then '_' else c) := by
  show pyReplaceAux [' '] ['_'] 0 x = _
  rw [pyReplaceAux_single]
  induction x with
  | nil => rfl
  | cons c rest ih =>
    simp only [List.map_cons, List.flatten_cons]
    by_cases hc : c = ' '
    · subst hc
      rw [if_pos rfl, if_pos rfl, ih]
      rfl
    · rw [if_neg hc, if_neg hc, ih]
      rfl

/-- The embedded `SafeX` coincides with its amended description. -/
theorem safeComponent_eq_amended (s : Str) : safeComponent s = specSafeAmended s := by
  unfold safeComponent specSafeAmended
  exact pyReplace_space_underscore _

/-- Membership through `pyStrip`. -/
theorem mem_of_mem_pyStrip {c : Char} {s : Str} (h : c ∈ pyStrip s) : c ∈ s := by
  unfold pyStrip at h
  rw [List.mem_reverse] at h
  have h1 := (List.dropWhile_suffix pyIsSpace
    (l := (s.dropWhile pyIsSpace).reverse)).subset h
  rw [List.mem_reverse] at h1
  exact (List.dropWhile_suffix pyIsSpace (l := s)).subset h1

/-- C4, counterexample: the code replaces each space separately, so the
company `"a  b"` (two spaces) yields `Resume_a__b_t.pdf` while the claimed
`SafeX` (collapsing each whitespace run to a single underscore) predicts
`Resume_a_b_t.pdf`. -/
theorem c4_counterexample :
    makeFilename (str "a  b") (str "t") = str "Resume_a__b_t.pdf" ∧
      str "Resume_" ++ specSafeClaim (str "a  b") ++ str "_" ++
          specSafeClaim (str "t") ++ str ".pdf" = str "Resume_a_b_t.pdf" ∧
      (str "Resume_a__b_t.pdf") ≠ str "Resume_a_b_t.pdf" :=
  ⟨rfl, rfl, by decide⟩

/-- C4 as amended: the filename is `Resume_<Safe company>_<Safe title>.pdf`
where `Safe` strips every character other than word characters, hyphen and
whitespace, trims, and then replaces each space character individually by an
underscore (a run of n spaces becomes n underscores; non-space whitespace
characters such as tabs are kept).  Every character of a `Safe` component is
a word character, a hyphen, or a non-space whitespace character. -/
theorem c4_theorem :
    ∀ company title : Str,
      makeFilename company title =
        str "Resume_" ++ specSafeAmended company ++ str "_" ++
          specSafeAmended title ++ str ".pdf" ∧
      ∀ ch ∈ specSafeAmended company,
        pyWordChar ch = true ∨ ch = '-' ∨ (pyIsSpace ch = true ∧ ch ≠ ' ') := by
  intro company title
  constructor
  · unfold makeFilename
    rw [safeComponent_eq_amended, safeComponent_eq_amended]
  · intro ch hch
    unfold specSafeAmended at hch
    rw [List.mem_map] at hch
    obtain ⟨d, hd, rfl⟩ := hch
    have hkeep : keepFilenameChar d = true :=
      (List.mem_filter.mp (mem_of_mem_pyStrip hd)).2
    unfold keepFilenameChar at hkeep
    by_cases hsp : d = ' '
    · subst hsp
      rw [if_pos rfl]
      left
      rfl
    · rw [if_neg hsp]
      simp only [Bool.or_eq_true] at hkeep
      rcases hkeep with (hw | hs) | hh
      · exact Or.inl hw
      · exact Or.inr (Or.inr ⟨hs, hsp⟩)
      · exact Or.inr (Or.inl (by simpa using hh))

/-- C4 witness: the amended statement evaluated at a concrete company and
title. -/
theorem c4_theorem_witness :
    makeFilename (str "Acme Inc") (str "Dev") =
        str "Resume_" ++ specSafeAmended (str "Acme Inc") ++ str "_" ++
          specSafeAmended (str "Dev") ++ str ".pdf" ∧
      ('A' ∈ specSafeAmended (str "Acme Inc") →
        pyWordChar 'A' = true ∨ 'A' = '-' ∨ (pyIsSpace 'A' = true ∧ 'A' ≠ ' ')) :=
  ⟨(c4_theorem (str "Acme Inc") (str "Dev")).1,
    fun h => (c4_theorem (str "Acme Inc") (str "Dev")).2 'A' h⟩

/-- The backtick character, named through its code point. -/
def btick : Char := Char.ofNat 96

theorem prefix3_decomp {x y w : Char} {s : Str}
    (h : List.isPrefixOf [x, y, w] s = true) : ∃ s', s = x :: y :: w :: s' := by
  obtain ⟨t, ht⟩ := List.isPrefixOf_iff_prefix.mp h
  exact ⟨t, by rw [← ht]; rfl⟩

theorem hasSeq_append_cases {sep b : Str} :
    ∀ {a : Str}, hasSeq sep (a ++ b) = true →
      hasSeq sep b = true ∨
        ∃ a', a' <:+ a ∧ a' ≠ [] ∧ sep.isPrefixOf (a' ++ b) = true := by
  intro a
  induction a with
  | nil => intro h; exact Or.inl (by simpa using h)
  | cons c a' ih =>
    intro h
    rw [List.cons_append] at h
    simp only [hasSeq, Bool.or_eq_true] at h
    rcases h with h | h
    · exact Or.inr ⟨c :: a', List.suffix_rfl, by simp, by rw [List.cons_append]; exact h⟩
    · rcases ih h with h1 | ⟨a'', hs, hne, hp⟩
      · exact Or.inl h1
      · exact Or.inr ⟨a'', hs.trans (List.suffix_cons c a'), hne, hp⟩

/-- A nonempty suffix ending the list determines the last element. -/
theorem getLast?_of_suffix {b m : Str} {x : Char}
    (hsuf : b <:+ m) (hlast : b.getLast? = some x) : m.getLast? = some x := by
  obtain ⟨pre, rfl⟩ := hsuf
  rw [List.getLast?_append, hlast]
  rfl

/-- No triple backtick occurs in the job-details/tailoring fence body
`"json\n" ++ t ++ "\n"` when none occurs in `t`. -/
theorem no_fence_in_body {t : Str} (hseq : hasSeq (str "```") t = false) :
    hasSeq (str "```") (str "json\n" ++ (t ++ ['\n'])) = false := by
  have h3 : str "```" = [btick, btick, btick] := by decide
  by_contra hcon
  have htrue : hasSeq (str "```") (str "json\n" ++ (t ++ ['\n'])) = true := by
    cases hq : hasSeq (str "```") (str "json\n" ++ (t ++ ['\n'])) with
    | true => rfl
    | false => exact absurd hq hcon
  rcases hasSeq_append_cases htrue with h | ⟨a', hs, hne, hp⟩
  · rcases hasSeq_append_cases h with h1 | ⟨a'', hs2, hne2, hp2⟩
    · rw [show hasSeq (str "```") ['\n'] = false from by decide] at h1
      exact absurd h1 (by simp)
    · rw [h3] at hp2
      obtain ⟨s', hdec⟩ := prefix3_decomp hp2
      cases a'' with
      | nil => exact hne2 rfl
      | cons d1 rest1 =>
        cases rest1 with
        | nil =>
          injection hdec with e1 e2
          injection e2 with e3 e4
          exact absurd e3 (by decide)
        | cons d2 rest2 =>
          cases rest2 with
          | nil =>
            injection hdec with e1 e2
            injection e2 with e3 e4
            injection e4 with e5 e6
            exact absurd e5 (by decide)
          | cons d3 rest3 =>
            injection hdec with e1 e2
            injection e2 with e3 e4
            injection e4 with e5 e6
            subst e1; subst e3; subst e5
            have hpre : [btick, btick, btick] <+: (btick :: btick :: btick :: rest3) :=
              ⟨rest3, rfl⟩
            have hinf : (str "```") <:+: t := by
              rw [h3]
              exact hpre.isInfix.trans hs2.isInfix
            rw [(hasSeq_infix_iff (by decide)).mpr hinf] at hseq
            exact absurd hseq (by simp)
  · rw [h3] at hp
    obtain ⟨s', hdec⟩ := prefix3_decomp hp
    cases a' with
    | nil => exact hne rfl
    | cons d1 rest1 =>
      injection hdec with e1 e2
      subst e1
      have hmem : btick ∈ str "json\n" := hs.subset (List.mem_cons_self btick rest1)
      exact absurd hmem (by decide)

/-- `pyStrip` is the identity on a string with non-space first and last
characters. -/
theorem pyStrip_eq_self {s : Str}
    (h1 : ∀ c, s.head? = some c → pyIsSpace c = false)
    (h2 : ∀ c, s.getLast? = some c → pyIsSpace c = false) : pyStrip s = s := by
  unfold pyStrip
  cases s with
  | nil => rfl
  | cons c cs =>
    have hc := h1 c rfl
    rw [List.dropWhile_cons, if_neg (by simp [hc])]
    cases hrev : (c :: cs).reverse with
    | nil => simp at hrev
    | cons d ds =>
      have hd : pyIsSpace d = false := by
        apply h2
        rw [← List.head?_reverse, hrev]
        rfl
      rw [List.dropWhile_cons, if_neg (by simp [hd]), ← hrev,
        List.reverse_reverse]

/-- `pyStrip` absorbs a leading whitespace character. -/
theorem pyStrip_cons_space {c : Char} (h : pyIsSpace c = true) (x : Str) :
    pyStrip (c :: x) = pyStrip x := by
  unfold pyStrip
  rw [List.dropWhile_cons]
  rw [if_pos (by simp [h])]

/-- `pyStrip` absorbs a trailing whitespace character. -/
theorem pyStrip_append_space {c : Char} (h : pyIsSpace c = true) (x : Str) :
    pyStrip (x ++ [c]) = pyStrip x := by
  unfold pyStrip
  rw [List.dropWhile_append]
  by_cases he : (x.dropWhile pyIsSpace).isEmpty
  · rw [if_pos (by simp [he])]
    rw [show List.dropWhile pyIsSpace [c] = [] from by simp [List.dropWhile, h]]
    rw [show (x.dropWhile pyIsSpace) = [] from by simpa using he]
  · rw [if_neg (by simp [he])]
    rw [List.reverse_append]
    show (List.dropWhile pyIsSpace (c :: (x.dropWhile pyIsSpace).reverse)).reverse = _
    rw [List.dropWhile_cons, if_pos (by simp [h])]

/-- `pyStrip` yields a contiguous substring. -/
theorem pyStrip_isInfix (s : Str) : pyStrip s <:+: s := by
  have d1 : s.dropWhile pyIsSpace <:+ s := List.dropWhile_suffix _
  have d2 : ((s.dropWhile pyIsSpace).reverse.dropWhile pyIsSpace) <:+
      (s.dropWhile pyIsSpace).reverse := List.dropWhile_suffix _
  obtain ⟨u, hu⟩ := d2
  have hp : pyStrip s <+: s.dropWhile pyIsSpace := by
    unfold pyStrip
    refine ⟨u.reverse, ?_⟩
    rw [← List.reverse_append, hu, List.reverse_reverse]
  exact hp.isInfix.trans d1.isInfix

/-- Fence-stripping on a fence-free response is just `strip()`. -/
theorem stripFences_bare {t : Str} (h : hasSeq (str "```") t = false) :
    stripFences t = pyStrip t := by
  unfold stripFences
  rw [if_neg ?hc]
  case hc =>
    intro hpre
    have hinf : (str "```") <:+: t :=
      (List.isPrefixOf_iff_prefix.mp hpre).isInfix.trans (pyStrip_isInfix t)
    rw [(hasSeq_infix_iff (by decide)).mpr hinf] at h
    exact absurd h (by simp)

theorem noEarly_fence {t b z : Str} (hseq : hasSeq (str "```") t = false)
    (hb : b ≠ []) (hsuf : b <:+ (str "json\n" ++ (t ++ ['\n']))) :
    (str "```").isPrefixOf (b ++ (str "```" ++ z)) = false := by
  have h3 : str "```" = [btick, btick, btick] := by decide
  have hbody := no_fence_in_body hseq
  cases hq : (str "```").isPrefixOf (b ++ (str "```" ++ z)) with
  | false => rfl
  | true =>
    exfalso
    rw [h3] at hq
    obtain ⟨s', hdec⟩ := prefix3_decomp hq
    have hmlast : (str "json\n" ++ (t ++ ['\n'])).getLast? = some '\n' := by
      rw [List.getLast?_append, List.getLast?_append]
      rfl
    cases b with
    | nil => exact hb rfl
    | cons a1 b1 =>
      cases b1 with
      | nil =>
        injection hdec with e1 e2
        subst e1
        have hlast := getLast?_of_suffix hsuf (rfl : ([btick] : Str).getLast? = some btick)
        rw [hmlast] at hlast
        injection hlast with e3
        exact absurd e3 (by decide)
      | cons a2 b2 =>
        cases b2 with
        | nil =>
          injection hdec with e1 e2
          injection e2 with e3 e4
          subst e3
          have hb2 : ([a1, btick] : Str).getLast? = some btick := by
            rw [List.getLast?_cons_cons]
            rfl
          have hlast := getLast?_of_suffix hsuf hb2
          rw [hmlast] at hlast
          injection hlast with e5
          exact absurd e5 (by decide)
        | cons a3 b3 =>
          injection hdec with e1 e2
          injection e2 with e3 e4
          injection e4 with e5 e6
          subst e1; subst e3; subst e5
          have hpre : [btick, btick, btick] <+: (btick :: btick :: btick :: b3) :=
            ⟨b3, rfl⟩
          have hinf : (str "```") <:+: (str "json\n" ++ (t ++ ['\n'])) := by
            rw [h3]
            exact hpre.isInfix.trans hsuf.isInfix
          rw [(hasSeq_infix_iff (by decide)).mpr hinf] at hbody
          exact absurd hbody (by simp)

/-- Splitting a fence-free-wrapped response at the fences. -/
theorem pySplit_fencedWrap {t : Str} (h : hasSeq (str "```") t = false) :
    pySplit (str "```") (fencedWrap t) = [[], str "json\n" ++ (t ++ ['\n']), []] := by
  have e2 : fencedWrap t =
      str "```" ++ ((str "json\n" ++ (t ++ ['\n'])) ++ (str "```" ++ [])) := by
    unfold fencedWrap
    rw [show str "```json" = str "```" ++ str "json" from rfl]
    rw [show str "json\n" = str "json" ++ ['\n'] from by decide]
    simp
  show pySplitAux (str "```") 0 (fencedWrap t) = _
  rw [e2, pySplitAux_sep_head _ (by decide)]
  rw [pySplitAux_first_occ (by decide) _ _ (fun b hb hsuf => noEarly_fence h hb hsuf)]
  rfl

/-- The first and last characters of the fenced wrapping are backticks, so
the outer `strip()` does nothing. -/
theorem pyStrip_fencedWrap (t : Str) : pyStrip (fencedWrap t) = fencedWrap t := by
  apply pyStrip_eq_self
  · intro c hc
    rw [show fencedWrap t =
        btick :: (str "``json" ++ ('\n' :: (t ++ '\n' :: str "```"))) from by
      unfold fencedWrap
      rw [show str "```json" = btick :: str "``json" from by decide]
      rfl] at hc
    injection hc with e
    subst e
    decide
  · intro c hc
    rw [show fencedWrap t =
        (str "```json" ++ ('\n' :: t) ++ ['\n']) ++ str "```" from by
      unfold fencedWrap
      simp] at hc
    rw [List.getLast?_append] at hc
    rw [show (str "```").getLast? = some btick from by decide] at hc
    injection hc with e
    subst e
    decide

/-- Fence-stripping of the fenced wrapping of a fence-free text `t` yields
exactly `strip(t)`. -/
theorem stripFences_fenced {t : Str} (h : hasSeq (str "```") t = false) :
    stripFences (fencedWrap t) = pyStrip t := by
  unfold stripFences
  rw [pyStrip_fencedWrap]
  rw [if_pos ?hpre]
  case hpre =>
    apply List.isPrefixOf_iff_prefix.mpr
    rw [show fencedWrap t =
        str "```" ++ (str "json" ++ ('\n' :: (t ++ '\n' :: str "```"))) from by
      unfold fencedWrap
      rw [show str "```json" = str "```" ++ str "json" from rfl]
      simp]
    exact List.prefix_append _ _
  rw [pySplit_fencedWrap h]
  show pyStrip (jsonTagDrop (str "json\n" ++ (t ++ ['\n']))) = _
  have e4 : str "json\n" ++ (t ++ ['\n']) = str "json" ++ ('\n' :: (t ++ ['\n'])) := by
    rw [show str "json\n" = str "json" ++ ['\n'] from by decide]
    simp
  unfold jsonTagDrop
  rw [e4, if_pos (List.isPrefixOf_iff_prefix.mpr (List.prefix_append _ _))]
  rw [show (4 : Nat) = (str "json").length from rfl, List.drop_left]
  rw [pyStrip_cons_space (by decide), pyStrip_append_space (by decide)]

/-- C7 as amended: for every response text `t` that does not itself contain
the fence delimiter ```` ``` ````, wrapping `t` in a ```` ```json ````
fenced block is transparent — any parser receives exactly the same string,
so the parse results coincide.  (The counterexample shows the restriction is
necessary.) -/
theorem c7_theorem {α : Type} (parse : Str → α) (t : Str)
    (h : hasSeq (str "```") t = false) :
    parse (stripFences (fencedWrap t)) = parse (stripFences t) := by
  rw [stripFences_fenced h, stripFences_bare h]

/-- C7 witness: the fenced and bare forms of a small JSON object are parsed
from the same stripped text. -/
theorem c7_theorem_witness :
    hasSeq (str "```") ("\x7b\"a\": 1\x7d".toList) = false ∧
      (fun s => s) (stripFences (fencedWrap ("\x7b\"a\": 1\x7d".toList))) =
        (fun s => s) (stripFences ("\x7b\"a\": 1\x7d".toList)) :=
  ⟨by decide, c7_theorem (fun s => s) ("\x7b\"a\": 1\x7d".toList) (by decide)⟩

/-- C7, counterexample: the JSON text `"\"```\""` (a string literal whose
value is three backticks) parses on its own, but its fenced wrapping is
mangled by `split("```")[1]` and no longer parses — fence-stripping is not
transparent for JSON texts containing the delimiter. -/
theorem c7_counterexample :
    (jsonLoads (stripFences ("\"```\"".toList))).isOk = true ∧
      (jsonLoads (stripFences (fencedWrap ("\"```\"".toList)))).isOk = false :=
  ⟨rfl, rfl⟩

theorem pyJoin_map_jstr (sep : Str) (l : List Str) :
    pyJoin sep (l.map .jstr) = .ok (List.intercalate sep l) := by
  unfold pyJoin
  rw [strsOf_map_jstr]
  rfl

/-- The code's double `.replace` equals the split-and-discard formulation of
occurrence removal. -/
theorem stripProtocol_eq (s : Str) :
    pyReplace (str "http://") [] (pyReplace (str "https://") [] s) =
      stripProtocolAll s := by
  show pyReplaceAux (str "http://") [] 0 (pyReplaceAux (str "https://") [] 0 s) = _
  rw [pyReplaceAux_nil_flatten, pyReplaceAux_nil_flatten]
  rfl

theorem emailPartOf_mk (e : Option Str) :
    emailPartOf (some (optJ e)) = ((presentF e).map specMailto).toList.map .jstr := by
  cases e with
  | none => rfl
  | some s =>
    by_cases hs : s.isEmpty
    · rw [show s = [] from by simpa using hs]
      rfl
    · show (if truthy (.jstr s) = true then
          [JVal.jstr (str "<a href=\"mailto:" ++ pyStr (.jstr s) ++
            str "\" color=\"blue\">" ++ pyStr (.jstr s) ++ str "</a>")]
        else []) =
        (((if s.isEmpty then none else some s).map specMailto).toList.map JVal.jstr)
      rw [if_pos (by simp [truthy, hs]), if_neg hs]
      rfl

theorem rawPartOf_mk (o : Option Str) :
    rawPartOf (some (optJ o)) = ((presentF o).toList.map .jstr) := by
  cases o with
  | none => rfl
  | some s =>
    by_cases hs : s.isEmpty
    · rw [show s = [] from by simpa using hs]
      rfl
    · show (if truthy (.jstr s) = true then [JVal.jstr s] else []) =
        ((if s.isEmpty then none else some s).toList.map JVal.jstr)
      rw [if_pos (by simp [truthy, hs]), if_neg hs]
      rfl

theorem linkPartOf_mk (o : Option Str) :
    linkPartOf (some (optJ o)) = .ok (((presentF o).map specLink).toList.map .jstr) := by
  cases o with
  | none => rfl
  | some s =>
    by_cases hs : s.isEmpty
    · rw [show s = [] from by simpa using hs]
      rfl
    · show (if truthy (.jstr s) = true then
          Except.ok [JVal.jstr (str "<a href=\"" ++ s ++ str "\" color=\"blue\">" ++
            pyReplace (str "http://") [] (pyReplace (str "https://") [] s) ++
            str "</a>")]
        else Except.ok []) =
        Except.ok ((((if s.isEmpty then none else some s).map specLink).toList.map JVal.jstr))
      rw [if_pos (by simp [truthy, hs]), if_neg hs]
      unfold specLink
      rw [stripProtocol_eq]
      rfl

theorem contactParts_mk (e p li g lo : Option Str) :
    contactParts (mkContact e p li g lo) =
      .ok ((specContactParts e p li g lo).map .jstr) := by
  have h1 : dictGet (mkContact e p li g lo) (str "email") = .ok (some (optJ e)) := rfl
  have h3 : dictGet (mkContact e p li g lo) (str "linkedin") = .ok (some (optJ li)) := rfl
  have h4 : dictGet (mkContact e p li g lo) (str "github") = .ok (some (optJ g)) := rfl
  unfold contactParts
  rw [h1, h3, h4]
  show (linkPartOf (some (optJ li))).bind (fun lp =>
      (linkPartOf (some (optJ g))).bind (fun gp =>
        Except.ok (emailPartOf (some (optJ e)) ++ rawPartOf (some (optJ p)) ++
          lp ++ gp ++ rawPartOf (some (optJ lo))))) = _
  rw [linkPartOf_mk li, linkPartOf_mk g]
  show Except.ok (emailPartOf (some (optJ e)) ++ rawPartOf (some (optJ p)) ++
      ((presentF li).map specLink).toList.map .jstr ++
      ((presentF g).map specLink).toList.map .jstr ++
      rawPartOf (some (optJ lo))) = _
  rw [emailPartOf_mk, rawPartOf_mk, rawPartOf_mk]
  unfold specContactParts
  simp [List.map_append]

/-- C8, counterexample: for `linkedin = "https://a/https://b"` the rendered
contact line shows `a/b` — every occurrence of the protocol was removed from
the display text — while the claim's prefix-only stripping predicts
`a/https://b`. -/
theorem c8_counterexample :
    contactLineElems (.jobj [(str "linkedin", .jstr (str "https://a/https://b"))]) =
        .ok [.para (str "<a href=\"https://a/https://b\" color=\"blue\">a/b</a>")
          .contactS] ∧
      stripProtocolOnce (str "https://a/https://b") = str "a/https://b" ∧
      (str "a/b") ≠ str "a/https://b" :=
  ⟨rfl, rfl, by decide⟩

/-- C8 as amended: the contact line joins the present (non-empty) fields
with `' | '` in the order email, phone, linkedin, github, location, the
email as a mail link; for linkedin and github the full URL is kept as the
link target while *every* occurrence of `https://` and then of `http://` is
removed from the display text (not only a protocol prefix); no contact line
is emitted when no field is present. -/
theorem c8_theorem (e p li g lo : Option Str) :
    contactLineElems (mkContact e p li g lo) =
      .ok (match specContactLine e p li g lo with
           | none => []
           | some l => [.para l .contactS]) := by
  unfold contactLineElems specContactLine
  rw [contactParts_mk]
  cases hP : specContactParts e p li g lo with
  | nil => rfl
  | cons x xs =>
    show (pyJoin (str " | ") ((x :: xs).map .jstr)).bind
        (fun line => Except.ok [Elem.para line Sty.contactS]) =
      Except.ok [Elem.para (List.intercalate (str " | ") (x :: xs)) Sty.contactS]
    rw [pyJoin_map_jstr]
    rfl

/-!  Lemma kit for claim C5: a structurally well-typed resume renders without
raising. -/

theorem ok_bind {α β : Type} (a : α) (f : α → Except PyErr β) :
    (Except.ok a >>= f) = f a := rfl

theorem dictGetD_obj (kvs : List (Str × JVal)) (k : Str) (d : JVal) :
    dictGetD (.jobj kvs) k d = .ok ((objLookup kvs k).getD d) := rfl

theorem paraOf_jstr (s : Str) (sty : Sty) : paraOf (.jstr s) sty = .ok (.para s sty) := rfl

theorem pyIter_jarr (xs : List JVal) : pyIter (.jarr xs) = .ok xs := rfl

theorem wtStrOpt_getD {o : Option JVal} (d : Str) (h : wtStrOpt o = true) :
    ∃ s, o.getD (.jstr d) = .jstr s := by
  cases o with
  | none => exact ⟨d, rfl⟩
  | some w =>
    cases w with
    | jstr s => exact ⟨s, rfl⟩
    | jnull => simp [wtStrOpt] at h
    | jbool b => simp [wtStrOpt] at h
    | jnum n => simp [wtStrOpt] at h
    | jarr xs => simp [wtStrOpt] at h
    | jobj kvs => simp [wtStrOpt] at h

theorem wtBullets_getD {o : Option JVal} (h : wtBullets o = true) :
    ∃ xs, o.getD (.jarr []) = .jarr xs ∧ ∀ x ∈ xs, ∃ b, x = .jstr b := by
  cases o with
  | none => exact ⟨[], rfl, by intro x hx; exact absurd hx (List.not_mem_nil x)⟩
  | some w =>
    cases w with
    | jarr xs =>
      simp only [wtBullets] at h
      refine ⟨xs, rfl, ?_⟩
      intro x hx
      have hx2 := List.all_eq_true.mp h x hx
      cases x with
      | jstr b => exact ⟨b, rfl⟩
      | jnull => exact Bool.noConfusion hx2
      | jbool b => exact Bool.noConfusion hx2
      | jnum n => exact Bool.noConfusion hx2
      | jarr ys => exact Bool.noConfusion hx2
      | jobj o => exact Bool.noConfusion hx2
    | jnull => simp [wtBullets] at h
    | jbool b => simp [wtBullets] at h
    | jnum n => simp [wtBullets] at h
    | jstr s => simp [wtBullets] at h
    | jobj o => simp [wtBullets] at h

theorem mapM_ok_of_all {α : Type} {f : JVal → Except PyErr α} {xs : List JVal}
    (h : ∀ x ∈ xs, ∃ y, f x = .ok y) : ∃ ys, xs.mapM f = .ok ys := by
  induction xs with
  | nil => exact ⟨[], rfl⟩
  | cons x rest ih =>
    obtain ⟨y, hy⟩ := h x (List.mem_cons_self x rest)
    obtain ⟨ys, hys⟩ := ih (fun z hz => h z (List.mem_cons_of_mem _ hz))
    refine ⟨y :: ys, ?_⟩
    rw [List.mapM_cons, hy]
    show (rest.mapM f >>= fun ys => pure (y :: ys)) = Except.ok (y :: ys)
    rw [hys]
    rfl

theorem bulletElem_jstr_ok (b : Str) : ∃ el, bulletElem (.jstr b) = .ok el := by
  cases b with
  | nil => exact ⟨_, rfl⟩
  | cons c cs => exact ⟨_, rfl⟩

theorem strsOf_ok {vs : List JVal} (h : ∀ v ∈ vs, ∃ s, v = .jstr s) :
    ∃ ss, strsOf vs = .ok ss := by
  induction vs with
  | nil => exact ⟨[], rfl⟩
  | cons v rest ih =>
    obtain ⟨s, rfl⟩ := h v (List.mem_cons_self v rest)
    obtain ⟨ss, hss⟩ := ih (fun z hz => h z (List.mem_cons_of_mem _ hz))
    refine ⟨s :: ss, ?_⟩
    show (strsOf rest).map (fun ss => s :: ss) = .ok (s :: ss)
    rw [hss]
    rfl

theorem emailPartOf_strs (o : Option JVal) : ∀ v ∈ emailPartOf o, ∃ s, v = .jstr s := by
  intro v hv
  cases o with
  | none => exact absurd hv (List.not_mem_nil v)
  | some w =>
    simp only [emailPartOf] at hv
    cases ht : truthy w with
    | false => simp [ht] at hv
    | true =>
      rw [ht] at hv
      rw [if_pos rfl] at hv
      exact ⟨_, List.mem_singleton.mp hv⟩

theorem rawPartOf_strs (o : Option JVal) (h : wtStrOpt o = true) :
    ∀ v ∈ rawPartOf o, ∃ s, v = .jstr s := by
  intro v hv
  cases o with
  | none => exact absurd hv (List.not_mem_nil v)
  | some w =>
    cases w with
    | jstr s =>
      simp only [rawPartOf] at hv
      cases ht : truthy (JVal.jstr s) with
      | false => simp [ht] at hv
      | true =>
        rw [ht] at hv
        rw [if_pos rfl] at hv
        exact ⟨s, List.mem_singleton.mp hv⟩
    | jnull => simp [wtStrOpt] at h
    | jbool b => simp [wtStrOpt] at h
    | jnum n => simp [wtStrOpt] at h
    | jarr xs => simp [wtStrOpt] at h
    | jobj kvs => simp [wtStrOpt] at h

theorem linkPartOf_wt (o : Option JVal) (h : wtStrOpt o = true) :
    ∃ l, linkPartOf o = .ok l ∧ ∀ v ∈ l, ∃ s, v = .jstr s := by
  cases o with
  | none => exact ⟨[], rfl, by intro v hv; exact absurd hv (List.not_mem_nil v)⟩
  | some w =>
    cases w with
    | jstr s =>
      cases s with
      | nil => exact ⟨[], rfl, by intro v hv; exact absurd hv (List.not_mem_nil v)⟩
      | cons c cs =>
        refine ⟨_, rfl, ?_⟩
        intro v hv
        exact ⟨_, List.mem_singleton.mp hv⟩
    | jnull => simp [wtStrOpt] at h
    | jbool b => simp [wtStrOpt] at h
    | jnum n => simp [wtStrOpt] at h
    | jarr xs => simp [wtStrOpt] at h
    | jobj kvs => simp [wtStrOpt] at h
theorem contactParts_wt (ckvs : List (Str × JVal))
    (he : wtStrOpt (objLookup ckvs (str "email")) = true)
    (hp : wtStrOpt (objLookup ckvs (str "phone")) = true)
    (hl : wtStrOpt (objLookup ckvs (str "linkedin")) = true)
    (hg : wtStrOpt (objLookup ckvs (str "github")) = true)
    (ho : wtStrOpt (objLookup ckvs (str "location")) = true) :
    ∃ parts, contactParts (.jobj ckvs) = .ok parts ∧ ∀ v ∈ parts, ∃ s, v = .jstr s := by
  obtain ⟨l1, hl1, hl1s⟩ := linkPartOf_wt _ hl
  obtain ⟨l2, hl2, hl2s⟩ := linkPartOf_wt _ hg
  unfold contactParts
  simp only [dictGet_obj, ok_bind]
  rw [hl1]
  simp only [ok_bind]
  rw [hl2]
  simp only [ok_bind]
  refine ⟨_, rfl, ?_⟩
  intro v hv
  rcases List.mem_append.mp hv with hv1 | hvO
  · rcases List.mem_append.mp hv1 with hv2 | hvG
    · rcases List.mem_append.mp hv2 with hv3 | hvL
      · rcases List.mem_append.mp hv3 with hvE | hvP
        · exact emailPartOf_strs _ v hvE
        · exact rawPartOf_strs _ hp v hvP
      · exact hl1s v hvL
    · exact hl2s v hvG
  · exact rawPartOf_strs _ ho v hvO

theorem contactLineElems_wt (ckvs : List (Str × JVal))
    (hc : wtContact (some (.jobj ckvs)) = true) :
    ∃ es, contactLineElems (.jobj ckvs) = .ok es := by
  simp only [wtContact, Bool.and_eq_true] at hc
  obtain ⟨⟨⟨⟨he, hp⟩, hl⟩, hg⟩, ho⟩ := hc
  obtain ⟨parts, hP, hPs⟩ := contactParts_wt ckvs he hp hl hg ho
  unfold contactLineElems
  rw [hP]
  simp only [ok_bind]
  cases parts with
  | nil => exact ⟨[], rfl⟩
  | cons p ps =>
    obtain ⟨ss, hss⟩ := strsOf_ok hPs
    split
    · rename_i hemp
      exact Bool.noConfusion hemp
    · rw [show pyJoin (str " | ") (p :: ps) = (strsOf (p :: ps)).map (List.intercalate (str " | ")) from rfl, hss]
      exact ⟨_, rfl⟩

theorem headerSection_wt (kvs : List (Str × JVal))
    (h1 : wtStrOpt (objLookup kvs (str "name")) = true)
    (h2 : wtContact (objLookup kvs (str "contact")) = true) :
    ∃ es, headerSection (.jobj kvs) = .ok es := by
  obtain ⟨s, hs⟩ := wtStrOpt_getD (str "Your Name") h1
  unfold headerSection
  simp only [dictGetD_obj, ok_bind]
  rw [hs]
  simp only [paraOf_jstr, ok_bind]
  cases hco : objLookup kvs (str "contact") with
  | none =>
    rw [Option.getD_none]
    obtain ⟨les, hles⟩ := contactLineElems_wt [] rfl
    rw [hles]
    exact ⟨_, rfl⟩
  | some c =>
    rw [hco] at h2
    cases c with
    | jobj ckvs =>
      rw [Option.getD_some]
      obtain ⟨les, hles⟩ := contactLineElems_wt ckvs h2
      rw [hles]
      exact ⟨_, rfl⟩
    | jnull => simp [wtContact] at h2
    | jbool b => simp [wtContact] at h2
    | jnum n => simp [wtContact] at h2
    | jstr t => simp [wtContact] at h2
    | jarr xs => simp [wtContact] at h2
theorem educationEntry_wt (v : JVal) (h : wtEduEntry v = true) :
    ∃ es, educationEntry v = .ok es := by
  cases v with
  | jobj kvs =>
    simp only [wtEduEntry] at h
    obtain ⟨s, hs⟩ := wtStrOpt_getD [] h
    unfold educationEntry
    simp only [dictGetD_obj, dictGet_obj, ok_bind]
    rw [hs]
    split
    · exact ⟨_, rfl⟩
    · exact ⟨_, rfl⟩
  | jnull => simp [wtEduEntry] at h
  | jbool b => simp [wtEduEntry] at h
  | jnum n => simp [wtEduEntry] at h
  | jstr s => simp [wtEduEntry] at h
  | jarr xs => simp [wtEduEntry] at h

theorem experienceEntry_wt (v : JVal) (h : wtExpEntry v = true) :
    ∃ es, experienceEntry v = .ok es := by
  cases v with
  | jobj kvs =>
    simp only [wtExpEntry, Bool.and_eq_true] at h
    obtain ⟨⟨h1, h2⟩, h3⟩ := h
    obtain ⟨ls, hls⟩ := wtStrOpt_getD [] h1
    obtain ⟨ds, hds⟩ := wtStrOpt_getD [] h2
    obtain ⟨xs, hxs, hmem⟩ := wtBullets_getD h3
    unfold experienceEntry
    simp only [dictGetD_obj, ok_bind]
    rw [hls, hds, hxs]
    simp only [paraOf_jstr, ok_bind, pyIter_jarr]
    have hall : ∀ x ∈ xs, ∃ el, bulletElem x = .ok el := by
      intro x hx
      obtain ⟨b, rfl⟩ := hmem x hx
      exact bulletElem_jstr_ok b
    obtain ⟨ys, hys⟩ := mapM_ok_of_all hall
    rw [hys]
    exact ⟨_, rfl⟩
  | jnull => simp [wtExpEntry] at h
  | jbool b => simp [wtExpEntry] at h
  | jnum n => simp [wtExpEntry] at h
  | jstr s => simp [wtExpEntry] at h
  | jarr xs => simp [wtExpEntry] at h

theorem projectEntry_wt (v : JVal) (h : wtProjEntry v = true) :
    ∃ es, projectEntry v = .ok es := by
  cases v with
  | jobj kvs =>
    simp only [wtProjEntry, Bool.and_eq_true] at h
    obtain ⟨⟨⟨h1, h2⟩, h3⟩, h4⟩ := h
    obtain ⟨ls, hls⟩ := wtStrOpt_getD [] h1
    obtain ⟨ds, hds⟩ := wtStrOpt_getD [] h2
    obtain ⟨xs, hxs, hmem⟩ := wtBullets_getD h4
    unfold projectEntry
    simp only [dictGetD_obj, dictGet_obj, ok_bind]
    rw [hls, hds, hxs]
    simp only [paraOf_jstr, ok_bind, pyIter_jarr]
    have hall : ∀ x ∈ xs, ∃ el, bulletElem x = .ok el := by
      intro x hx
      obtain ⟨b, rfl⟩ := hmem x hx
      exact bulletElem_jstr_ok b
    obtain ⟨ys, hys⟩ := mapM_ok_of_all hall
    rw [hys]
    split <;>
      (split
       · rename_i w heq
         rw [heq] at h3
         cases w with
         | jstr t =>
           split
           · exact ⟨_, rfl⟩
           · exact ⟨_, rfl⟩
         | jnull => simp [wtStrOpt] at h3
         | jbool b => simp [wtStrOpt] at h3
         | jnum n => simp [wtStrOpt] at h3
         | jarr ys => simp [wtStrOpt] at h3
         | jobj o => simp [wtStrOpt] at h3
       · exact ⟨_, rfl⟩)
  | jnull => simp [wtProjEntry] at h
  | jbool b => simp [wtProjEntry] at h
  | jnum n => simp [wtProjEntry] at h
  | jstr s => simp [wtProjEntry] at h
  | jarr xs => simp [wtProjEntry] at h

theorem educationSection_wt (kvs : List (Str × JVal))
    (h : wtEntries wtEduEntry (objLookup kvs (str "education")) = true) :
    ∃ es, educationSection (.jobj kvs) = .ok es := by
  unfold educationSection
  simp only [dictGet_obj, ok_bind]
  split
  · rename_i v heq
    rw [heq] at h
    cases v with
    | jarr xs =>
      simp only [wtEntries] at h
      have hall : ∀ x ∈ xs, ∃ es, educationEntry x = .ok es :=
        fun x hx => educationEntry_wt x (List.all_eq_true.mp h x hx)
      obtain ⟨ys, hys⟩ := mapM_ok_of_all hall
      split
      · rw [pyIter_jarr]
        simp only [ok_bind]
        rw [hys]
        exact ⟨_, rfl⟩
      · exact ⟨[], rfl⟩
    | jnull => simp [wtEntries] at h
    | jbool b => simp [wtEntries] at h
    | jnum n => simp [wtEntries] at h
    | jstr s => simp [wtEntries] at h
    | jobj o => simp [wtEntries] at h
  · exact ⟨[], rfl⟩

theorem experienceSection_wt (kvs : List (Str × JVal))
    (h : wtEntries wtExpEntry (objLookup kvs (str "experience")) = true) :
    ∃ es, experienceSection (.jobj kvs) = .ok es := by
  unfold experienceSection
  simp only [dictGet_obj, ok_bind]
  split
  · rename_i v heq
    rw [heq] at h
    cases v with
    | jarr xs =>
      simp only [wtEntries] at h
      have hall : ∀ x ∈ xs, ∃ es, experienceEntry x = .ok es :=
        fun x hx => experienceEntry_wt x (List.all_eq_true.mp h x hx)
      obtain ⟨ys, hys⟩ := mapM_ok_of_all hall
      split
      · rw [pyIter_jarr]
        simp only [ok_bind]
        rw [hys]
        exact ⟨_, rfl⟩
      · exact ⟨[], rfl⟩
    | jnull => simp [wtEntries] at h
    | jbool b => simp [wtEntries] at h
    | jnum n => simp [wtEntries] at h
    | jstr s => simp [wtEntries] at h
    | jobj o => simp [wtEntries] at h
  · exact ⟨[], rfl⟩

theorem projectsSection_wt (kvs : List (Str × JVal))
    (h : wtEntries wtProjEntry (objLookup kvs (str "projects")) = true) :
    ∃ es, projectsSection (.jobj kvs) = .ok es := by
  unfold projectsSection
  simp only [dictGet_obj, ok_bind]
  split
  · rename_i v heq
    rw [heq] at h
    cases v with
    | jarr xs =>
      simp only [wtEntries] at h
      have hall : ∀ x ∈ xs, ∃ es, projectEntry x = .ok es :=
        fun x hx => projectEntry_wt x (List.all_eq_true.mp h x hx)
      obtain ⟨ys, hys⟩ := mapM_ok_of_all hall
      split
      · rw [pyIter_jarr]
        simp only [ok_bind]
        rw [hys]
        exact ⟨_, rfl⟩
      · exact ⟨[], rfl⟩
    | jnull => simp [wtEntries] at h
    | jbool b => simp [wtEntries] at h
    | jnum n => simp [wtEntries] at h
    | jstr s => simp [wtEntries] at h
    | jobj o => simp [wtEntries] at h
  · exact ⟨[], rfl⟩

theorem skillsGroupElems_wt (skvs : List (Str × JVal)) (key label : Str)
    (h : wtBullets (objLookup skvs key) = true) :
    ∃ es, skillsGroupElems (.jobj skvs) key label = .ok es := by
  unfold skillsGroupElems
  simp only [dictGet_obj, ok_bind]
  split
  · rename_i v heq
    rw [heq] at h
    cases v with
    | jarr xs =>
      simp only [wtBullets] at h
      have hmem : ∀ x ∈ xs, ∃ s, x = JVal.jstr s := by
        intro x hx
        have hx2 := List.all_eq_true.mp h x hx
        cases x with
        | jstr s => exact ⟨s, rfl⟩
        | jnull => exact Bool.noConfusion hx2
        | jbool b => exact Bool.noConfusion hx2
        | jnum n => exact Bool.noConfusion hx2
        | jarr ys => exact Bool.noConfusion hx2
        | jobj o => exact Bool.noConfusion hx2
      obtain ⟨ss, hss⟩ := strsOf_ok hmem
      split
      · rw [show pyJoinIter (str ", ") (.jarr xs) = (strsOf xs).map (List.intercalate (str ", ")) from rfl, hss]
        exact ⟨_, rfl⟩
      · exact ⟨[], rfl⟩
    | jnull => simp [wtBullets] at h
    | jbool b => simp [wtBullets] at h
    | jnum n => simp [wtBullets] at h
    | jstr s => simp [wtBullets] at h
    | jobj o => simp [wtBullets] at h
  · exact ⟨[], rfl⟩

theorem skillsSection_wt (kvs : List (Str × JVal))
    (h : wtSkills (objLookup kvs (str "skills")) = true) :
    ∃ es, skillsSection (.jobj kvs) = .ok es := by
  unfold skillsSection
  simp only [dictGet_obj, ok_bind]
  split
  · rename_i v heq
    rw [heq] at h
    cases v with
    | jobj skvs =>
      simp only [wtSkills, Bool.and_eq_true] at h
      obtain ⟨⟨h1, h2⟩, h3⟩ := h
      obtain ⟨g1, hg1⟩ := skillsGroupElems_wt skvs (str "technical") (str "<b>Technical:</b> ") h1
      obtain ⟨g2, hg2⟩ := skillsGroupElems_wt skvs (str "tools") (str "<b>Tools &amp; Frameworks:</b> ") h2
      obtain ⟨g3, hg3⟩ := skillsGroupElems_wt skvs (str "programming_languages") (str "<b>Programming Languages:</b> ") h3
      split
      · rw [hg1, hg2, hg3]
        exact ⟨_, rfl⟩
      · exact ⟨[], rfl⟩
    | jnull => simp [wtSkills] at h
    | jbool b => simp [wtSkills] at h
    | jnum n => simp [wtSkills] at h
    | jstr s => simp [wtSkills] at h
    | jarr xs => simp [wtSkills] at h
  · exact ⟨[], rfl⟩

theorem certificationsSection_wt (kvs : List (Str × JVal))
    (h : wtCerts (objLookup kvs (str "certifications")) = true) :
    ∃ es, certificationsSection (.jobj kvs) = .ok es := by
  unfold certificationsSection
  simp only [dictGet_obj, ok_bind]
  split
  · rename_i v heq
    rw [heq] at h
    cases v with
    | jarr xs =>
      split
      · exact ⟨_, rfl⟩
      · exact ⟨[], rfl⟩
    | jnull => simp [wtCerts] at h
    | jbool b => simp [wtCerts] at h
    | jnum n => simp [wtCerts] at h
    | jstr s => simp [wtCerts] at h
    | jobj o => simp [wtCerts] at h
  · exact ⟨[], rfl⟩
/-- C5 counterexample: the resume document `\x7b"contact": "me@x.com"\x7d` has a
wrong-typed leaf (`contact` is a string, not an object), and the renderer
raises `AttributeError` (from `contact.get('email')`) instead of falling back
to an empty value. -/
theorem c5_counterexample :
    resumeElements (.jobj [(str "contact", .jstr (str "me@x.com"))]) =
      .error .attributeError := rfl

/-- C5 (amended): on every structurally well-typed resume document — each
leaf field the renderer reads being absent or of the expected type, with all
absences falling back to defaults — the renderer never raises: it produces an
element list. -/
theorem c5_theorem (d : JVal) (h : wtResume d = true) :
    ∃ es, resumeElements d = .ok es := by
  cases d with
  | jobj kvs =>
    simp only [wtResume, Bool.and_eq_true] at h
    obtain ⟨⟨⟨⟨⟨⟨hname, hcontact⟩, hedu⟩, hexp⟩, hproj⟩, hsk⟩, hcerts⟩ := h
    obtain ⟨e1, h1⟩ := headerSection_wt kvs hname hcontact
    obtain ⟨e2, h2⟩ := educationSection_wt kvs hedu
    obtain ⟨e3, h3⟩ := experienceSection_wt kvs hexp
    obtain ⟨e4, h4⟩ := projectsSection_wt kvs hproj
    obtain ⟨e5, h5⟩ := skillsSection_wt kvs hsk
    obtain ⟨e6, h6⟩ := certificationsSection_wt kvs hcerts
    unfold resumeElements
    rw [h1, h2, h3, h4, h5, h6]
    exact ⟨_, rfl⟩
  | jnull => simp [wtResume] at h
  | jbool b => simp [wtResume] at h
  | jnum n => simp [wtResume] at h
  | jstr s => simp [wtResume] at h
  | jarr xs => simp [wtResume] at h

/-- Witness for C5 at a concrete well-typed document exercising the header,
contact, experience (with a bold-marker bullet) and skills sections. -/
theorem c5_theorem_witness :
    wtResume (.jobj [(str "name", .jstr (str "Ada")),
      (str "contact", .jobj [(str "email", .jstr (str "a@b.c"))]),
      (str "experience", .jarr [.jobj [(str "company", .jstr (str "X")),
        (str "bullets", .jarr [.jstr (str "Did **things**")])]]),
      (str "skills", .jobj [(str "technical", .jarr [.jstr (str "Lean")])])]) = true ∧
    ∃ es, resumeElements (.jobj [(str "name", .jstr (str "Ada")),
      (str "contact", .jobj [(str "email", .jstr (str "a@b.c"))]),
      (str "experience", .jarr [.jobj [(str "company", .jstr (str "X")),
        (str "bullets", .jarr [.jstr (str "Did **things**")])]]),
      (str "skills", .jobj [(str "technical", .jarr [.jstr (str "Lean")])])]) = .ok es :=
  ⟨by decide, c5_theorem _ (by decide)⟩

/-- C6: whenever the pipeline reaches the tailoring call (API key configured,
multipart request carrying a resume file and a job description, text
extracted from the PDF, company/title resolved) and the tailoring LLM
response fails `json.loads` after fence-stripping, the handler's entire
output is the single structured error payload
`\x7b"error": "Failed to parse AI response: ..."\x7d` with status 500, and no
PDF bytes — full or partial — are written. -/
theorem c6_theorem (loads : Str → Except Str JVal) (build : List Elem → List Nat)
    (k contentType : Str) (fd : FormData) (resumeText : Str)
    (llmJobDetails : Except Str Str) (cv tv : JVal) (resp m : Str)
    (hct : hasSeq (str "multipart/form-data") contentType = true)
    (hfile : fd.files.contains (str "resume") = true)
    (hjd : (fieldsGetD fd (str "job_description")).isEmpty = false)
    (hrt : resumeText.isEmpty = false)
    (hres : resolveDetails loads (fieldsGetD fd (str "company_name"))
      (fieldsGetD fd (str "job_title")) llmJobDetails = .ok (cv, tv))
    (hbad : loads (stripFences resp) = .error m) :
    do_POST loads build (some k) contentType (.ok fd) (.ok resumeText)
        llmJobDetails (.ok resp) =
      send_error_response 500 (str "Failed to parse AI response: " ++ m) ∧
    ∀ bs, WriteEv.bodyPdf bs ∉ do_POST loads build (some k) contentType (.ok fd)
      (.ok resumeText) llmJobDetails (.ok resp) := by
  have ht : tailor_resume loads resp = .error (.decodeErr m) := by
    unfold tailor_resume
    rw [hbad]
  have hmain : do_POST loads build (some k) contentType (.ok fd) (.ok resumeText)
      llmJobDetails (.ok resp) =
      send_error_response 500 (str "Failed to parse AI response: " ++ m) := by
    have hfile2 : str "resume" ∈ fd.files := by
      have h2 := hfile
      simp at h2
      exact h2
    unfold do_POST
    simp [hct, hfile2, hjd, hrt, hres, ht, appErrResponse]
  refine ⟨hmain, ?_⟩
  rw [hmain]
  intro bs hbs
  simp [send_error_response] at hbs
/-- Witness for C6: a concrete request whose tailoring response `not json`
fails parsing under a concrete `json.loads` behaviour. -/
theorem c6_theorem_witness :
    ((fun s => (match jsonLoads s with
        | .error _ => .error (str "Expecting value")
        | .ok v => .ok v : Except Str JVal)) (stripFences (str "not json")) =
      .error (str "Expecting value")) ∧
    (do_POST (fun s => (match jsonLoads s with
        | .error _ => .error (str "Expecting value")
        | .ok v => .ok v : Except Str JVal)) (fun _ => [])
      (some (str "K")) (str "multipart/form-data")
      (.ok ⟨[(str "job_description", str "J"), (str "company_name", str "Acme"),
        (str "job_title", str "Dev")], [str "resume"]⟩)
      (.ok (str "R")) (.ok []) (.ok (str "not json")) =
      send_error_response 500 (str "Failed to parse AI response: " ++ str "Expecting value") ∧
     ∀ bs, WriteEv.bodyPdf bs ∉ do_POST (fun s => (match jsonLoads s with
        | .error _ => .error (str "Expecting value")
        | .ok v => .ok v : Except Str JVal)) (fun _ => [])
      (some (str "K")) (str "multipart/form-data")
      (.ok ⟨[(str "job_description", str "J"), (str "company_name", str "Acme"),
        (str "job_title", str "Dev")], [str "resume"]⟩)
      (.ok (str "R")) (.ok []) (.ok (str "not json"))) :=
  ⟨rfl, c6_theorem _ _ (str "K") (str "multipart/form-data") _ (str "R") (.ok [])
    (.jstr (str "Acme")) (.jstr (str "Dev")) (str "not json") (str "Expecting value")
    rfl rfl rfl rfl rfl rfl⟩

/-- Witness for C1 at concrete field values across the header, contact,
education and project constructions. -/
theorem c1_theorem_witness :
    ([Elem.para (str "Ada") Sty.nameS].head? = some (.para (str "Ada") .nameS)) ∧
    contactParts (.jobj [(str "email", .jstr (str "a")), (str "phone", .jstr (str "1")),
        (str "linkedin", .jstr (str "L")), (str "github", .jstr (str "G")),
        (str "location", .jstr (str "X"))]) =
      .ok [.jstr (str "<a href=\"mailto:" ++ str "a" ++ str "\" color=\"blue\">" ++
             str "a" ++ str "</a>"),
           .jstr (str "1"),
           .jstr (str "<a href=\"" ++ str "L" ++ str "\" color=\"blue\">" ++
             pyReplace (str "http://") [] (pyReplace (str "https://") [] (str "L")) ++
             str "</a>"),
           .jstr (str "<a href=\"" ++ str "G" ++ str "\" color=\"blue\">" ++
             pyReplace (str "http://") [] (pyReplace (str "https://") [] (str "G")) ++
             str "</a>"),
           .jstr (str "X")] ∧
    educationEntry (.jobj [(str "institution", .jstr (str "MIT")),
        (str "graduation", .jstr (str "2020")), (str "degree", .jstr (str "BS")),
        (str "gpa", .jstr (str "4.0")),
        (str "relevant_coursework", .jstr (str "Math"))]) =
      .ok [.rowTable (.para (str "<b>" ++ pyStr (.jstr (str "MIT")) ++ str "</b>") .normalS)
             (.para (str "<b>" ++ pyStr (.jstr (str "2020")) ++ str "</b>") .normalS),
           .para (str "BS") .normalS,
           .para (str "• " ++ (str "<b>GPA:</b> " ++ str "4.0")) .bulletS,
           .para (str "• " ++ (str "<b>Relevant Coursework:</b> " ++ str "Math")) .bulletS,
           .spacer 1 4] ∧
    projectEntry (.jobj [(str "name", .jstr (str "P")), (str "location", .jstr (str "NY")),
        (str "technologies", .jstr (str "T")), (str "duration", .jstr (str "2020")),
        (str "description", .jstr (str "D")),
        (str "bullets", .jarr ([str "x**y**"].map .jstr))]) =
      .ok ([.rowTable (.para (str "<b>" ++ pyStr (.jstr (str "P")) ++ str "</b>") .normalS)
              (.para (str "NY") .normalS),
            .rowTable (.para (str "<i>" ++ str "T" ++ str "</i>") .normalS)
              (.para (str "2020") .normalS),
            .para (str "D") .normalS] ++
           [str "x**y**"].map (fun b => Elem.para (str "• " ++ markupNormalizerRefNL b)
             .bulletS) ++
           [.spacer 1 4]) :=
  ⟨c1_theorem.1 [(str "name", .jstr (str "Ada"))] (str "Ada")
     [.para (str "Ada") .nameS] rfl rfl,
   c1_theorem.2.1 (str "a") (str "1") (str "L") (str "G") (str "X")
     (by decide) (by decide) (by decide) (by decide) (by decide),
   c1_theorem.2.2.1 (.jstr (str "MIT")) (.jstr (str "2020")) (str "BS") (str "4.0")
     (str "Math") (by decide) (by decide) (by decide),
   c1_theorem.2.2.2.2.1 (.jstr (str "P")) (str "NY") (str "T") (str "2020") (str "D")
     [str "x**y**"] (by decide) (by decide)⟩

/-- Witness for C3 at a concrete resume with an empty education list: the
Education section is omitted in full. -/
theorem c3_theorem_witness :
    optTruthy (objLookup [(str "education", JVal.jarr [])] (str "education")) = false ∧
      educationSection (.jobj [(str "education", .jarr [])]) = .ok [] :=
  ⟨rfl, (c3_theorem [(str "education", .jarr [])]).1 rfl⟩

end ResumeOpt
